import Mathlib

/-!
# Verification of the Cascadia scoring engine

A shallow embedding of the scoring engine found in `scoring_rules.py`
(class `CascadiaScoringRules`) and `cascadia_scorer.py` (class
`CascadiaScorer`), together with proofs and refutations of the
specification's claims about it.

Modelling conventions:
* Python `dict[str, int]` values (scoring tables, habitat scores,
  majority-bonus maps) are association lists `List (String × Int)`
  with Python's insertion-order/overwrite semantics (`dictSet`).
* Python `str(n)` on a non-negative integer is `strNat`, which produces
  the decimal digit string.
* Pattern sizes, counts and run lengths are `Nat`; point values,
  player ids and scores are `Int`.
* Recursive graph walks (`_trace_run`, `_flood_fill`) take an explicit
  fuel argument; every call site passes fuel that exceeds the maximal
  possible recursion depth (one unit per newly visited node), so the
  fuel-exhaustion branch is unreachable.
* The human-readable explanation strings that accompany the numeric
  detector scores are not modelled; all claims are about the numeric
  scores and the winner message, which are modelled exactly.
-/

/-! ## Association-list model of Python string-keyed dicts -/

/-- Lookup in an insertion-ordered dict: value of the first matching key. -/
def dictLookup (d : List (String × Int)) (k : String) : Option Int :=
  match d with
  | [] => none
  | p :: rest => if p.1 = k then some p.2 else dictLookup rest k

/-- Python `d.get(k, v)`. -/
def dictGetD (d : List (String × Int)) (k : String) (v : Int) : Int :=
  (dictLookup d k).getD v

/-- Python `d[k] = v`: overwrite the first occurrence of `k` in place,
or append a new entry at the end (insertion order). -/
def dictSet (d : List (String × Int)) (k : String) (v : Int) :
    List (String × Int) :=
  match d with
  | [] => [(k, v)]
  | p :: rest => if p.1 = k then (k, v) :: rest else p :: dictSet rest k v

/-- Python `sum(d.values())`. -/
def sumValues (d : List (String × Int)) : Int :=
  d.foldl (fun s p => s + p.2) 0

theorem dictLookup_dictSet_self (d : List (String × Int)) (k : String)
    (v : Int) : dictLookup (dictSet d k v) k = some v := by
  induction d with
  | nil => simp [dictSet, dictLookup]
  | cons p rest ih =>
    by_cases h : p.1 = k
    · simp [dictSet, h, dictLookup]
    · simp [dictSet, h, dictLookup, ih]

theorem dictLookup_dictSet_ne (d : List (String × Int)) (k k' : String)
    (v : Int) (h : k ≠ k') :
    dictLookup (dictSet d k v) k' = dictLookup d k' := by
  induction d with
  | nil => simp [dictSet, dictLookup, h]
  | cons p rest ih =>
    by_cases hp : p.1 = k
    · simp [dictSet, hp, dictLookup, h]
    · simp [dictSet, hp, dictLookup, ih]

theorem dictSet_dictSet_same (d : List (String × Int)) (k : String)
    (a b : Int) : dictSet (dictSet d k a) k b = dictSet d k b := by
  induction d with
  | nil => simp [dictSet]
  | cons p rest ih =>
    by_cases hp : p.1 = k
    · simp [dictSet, hp]
    · simp [dictSet, hp, ih]

theorem dictSet_of_lookup_eq (d : List (String × Int)) (k : String)
    (v : Int) (h : dictLookup d k = some v) : dictSet d k v = d := by
  induction d with
  | nil => simp [dictLookup] at h
  | cons p rest ih =>
    obtain ⟨k', v'⟩ := p
    by_cases hp : k' = k
    · subst hp
      simp [dictLookup] at h
      simp [dictSet, h]
    · simp only [dictLookup, if_neg hp] at h
      simp [dictSet, hp, ih h]

/-! ## Decimal strings: the model of Python `str(n)` -/

/-- One decimal digit as a character. -/
def digitChar (d : Nat) : Char :=
  match d with
  | 0 => '0' | 1 => '1' | 2 => '2' | 3 => '3' | 4 => '4'
  | 5 => '5' | 6 => '6' | 7 => '7' | 8 => '8' | 9 => '9'
  | _ => '?'

/-- Decimal digits of `n`, most significant first; structural fuel makes
the definition kernel-reducible.  Any `fuel > n` yields the digits. -/
def natDigitsAux : Nat → Nat → List Nat
  | 0, _ => []
  | fuel + 1, n => if n < 10 then [n] else natDigitsAux fuel (n / 10) ++ [n % 10]

def natDigits (n : Nat) : List Nat := natDigitsAux (n + 1) n

/-- Python `str(n)` for a non-negative integer. -/
def strNat (n : Nat) : String := ⟨(natDigits n).map digitChar⟩

/-- Decimal value of a digit list (big-endian). -/
def digitsVal (ds : List Nat) : Nat := ds.foldl (fun a d => a * 10 + d) 0

theorem digitsVal_append (ds : List Nat) (d : Nat) :
    digitsVal (ds ++ [d]) = 10 * digitsVal ds + d := by
  simp [digitsVal, List.foldl_append, Nat.mul_comm]

theorem natDigitsAux_spec (fuel : Nat) :
    ∀ n, n < fuel → digitsVal (natDigitsAux fuel n) = n ∧
      (∀ d ∈ natDigitsAux fuel n, d < 10) ∧ natDigitsAux fuel n ≠ [] := by
  induction fuel with
  | zero => intro n h; omega
  | succ fuel ih =>
    intro n h
    by_cases h10 : n < 10
    · refine ⟨by simp [natDigitsAux, h10, digitsVal], ?_, by simp [natDigitsAux, h10]⟩
      intro d hd
      simp only [natDigitsAux, if_pos h10, List.mem_singleton] at hd
      omega
    · have hdiv : n / 10 < n := Nat.div_lt_self (by omega) (by omega)
      have := ih (n / 10) (by omega)
      refine ⟨?_, ?_, ?_⟩
      · simp only [natDigitsAux, if_neg h10, digitsVal_append, this.1]
        omega
      · intro d hd
        simp only [natDigitsAux, if_neg h10, List.mem_append,
          List.mem_singleton] at hd
        rcases hd with hd | hd
        · exact this.2.1 d hd
        · omega
      · simp [natDigitsAux, if_neg h10]

theorem digitsVal_natDigits (n : Nat) : digitsVal (natDigits n) = n :=
  (natDigitsAux_spec (n + 1) n (by omega)).1

theorem natDigits_lt (n : Nat) : ∀ d ∈ natDigits n, d < 10 :=
  (natDigitsAux_spec (n + 1) n (by omega)).2.1

theorem digitChar_isDigit (d : Nat) (h : d < 10) :
    (digitChar d).isDigit = true := by
  interval_cases d <;> decide

theorem digitChar_inj (d₁ d₂ : Nat) (h₁ : d₁ < 10) (h₂ : d₂ < 10)
    (h : digitChar d₁ = digitChar d₂) : d₁ = d₂ := by
  interval_cases d₁ <;> interval_cases d₂ <;> simp_all [digitChar]

theorem map_digitChar_inj : ∀ (l₁ l₂ : List Nat), (∀ d ∈ l₁, d < 10) →
    (∀ d ∈ l₂, d < 10) → l₁.map digitChar = l₂.map digitChar → l₁ = l₂ := by
  intro l₁
  induction l₁ with
  | nil => intro l₂ _ _ h; cases l₂ with
    | nil => rfl
    | cons _ _ => simp at h
  | cons d rest ih =>
    intro l₂ h₁ h₂ h
    cases l₂ with
    | nil => simp at h
    | cons d' rest' =>
      simp only [List.map_cons, List.cons.injEq] at h
      have hd : d = d' :=
        digitChar_inj d d' (h₁ d (by simp)) (h₂ d' (by simp)) h.1
      have hr : rest = rest' :=
        ih rest' (fun x hx => h₁ x (by simp [hx]))
          (fun x hx => h₂ x (by simp [hx])) h.2
      rw [hd, hr]

theorem strNat_inj {m n : Nat} (h : strNat m = strNat n) : m = n := by
  have hdata : (natDigits m).map digitChar = (natDigits n).map digitChar := by
    simpa [strNat, String.ext_iff] using h
  have hds : natDigits m = natDigits n :=
    map_digitChar_inj _ _ (natDigits_lt m) (natDigits_lt n) hdata
  calc m = digitsVal (natDigits m) := (digitsVal_natDigits m).symm
    _ = digitsVal (natDigits n) := by rw [hds]
    _ = n := digitsVal_natDigits n

theorem strNat_all_isDigit (n : Nat) :
    ∀ c ∈ (strNat n).data, c.isDigit = true := by
  intro c hc
  simp only [strNat, List.mem_map] at hc
  obtain ⟨d, hd, rfl⟩ := hc
  exact digitChar_isDigit d (natDigits_lt n d hd)

/-- `strNat n` never equals a string that contains a non-digit character
(such as the `+` of an open-ended bucket key). -/
theorem strNat_ne_of_nonDigit (n : Nat) (s : String) (c : Char)
    (hc : c ∈ s.data) (hnd : c.isDigit = false) : strNat n ≠ s := by
  intro h
  have := strNat_all_isDigit n c (by rw [h]; exact hc)
  rw [this] at hnd
  cases hnd

theorem strNat_ne_of_lt (n m : Nat) (h : m < n) : strNat n ≠ strNat m := by
  intro heq
  exact absurd (strNat_inj heq) (by omega)

/-! ## Data model (`scoring_rules.py`, `vlm_analyzer.py`) -/

/-- `AnimalPosition` from `scoring_rules.py`. -/
structure AnimalPosition where
  animal_type : String
  row : Int
  col : Int
  adjacent_animals : List String
deriving Repr, DecidableEq

instance : Inhabited AnimalPosition := ⟨⟨"", 0, 0, []⟩⟩

/-- `HabitatTile` from `scoring_rules.py`. -/
structure HabitatTile where
  terrain_type : String
  row : Int
  col : Int
deriving Repr, DecidableEq

instance : Inhabited HabitatTile := ⟨⟨"", 0, 0⟩⟩

/-- The `wildlife_patterns` dict of a `PlayerBoard`: the pre-reduced
pattern summary supplied by the perception layer.  Field access models
`patterns.get(key, default)`; `none` models an absent key. -/
structure WildlifePatterns where
  bear_pairs : Option Nat
  elk_lines : Option (List Nat)
  salmon_runs : Option (List Nat)
  isolated_hawks : Option Nat
  fox_neighbors : Option (List Nat)
deriving Repr, DecidableEq

/-- `PlayerBoard` from `vlm_analyzer.py` (the `animals` count dict is
never read by the scorer and is omitted). -/
structure PlayerBoard where
  player_id : Int
  nature_tokens : Int
  largest_habitats : List (String × Int)
  wildlife_patterns : WildlifePatterns
deriving Repr, DecidableEq

/-- The `scoring_cards` argument of `CascadiaScorer.score_game`.  Each
field is the species' `'scoring'` sub-dict: `some d` models
`scoring_cards[species]['scoring'] = d`, and `none` models an absent
species entry (for `bear`, an entry whose `'scoring'` sub-dict is
missing behaves like `some []`, exactly as in the code). -/
structure ScoringCards where
  bear : Option (List (String × Int))
  elk : Option (List (String × Int))
  salmon : Option (List (String × Int))
  hawk : Option (List (String × Int))
  fox : Option (List (String × Int))
deriving Repr, DecidableEq

/-- `PlayerScore` from `cascadia_scorer.py` (the two explanation-string
dicts are not modelled). -/
structure PlayerScore where
  player_id : Int
  animal_scores : List (String × Int)
  habitat_scores : List (String × Int)
  habitat_total : Int
  nature_tokens : Int
  majority_bonuses : List (String × Int)
  total_score : Int
deriving Repr, DecidableEq

instance : Inhabited PlayerScore := ⟨⟨0, [], [], 0, 0, [], 0⟩⟩

/-! ## `CascadiaScoringRules._are_adjacent` and the adjacency graph -/

/-- `_are_adjacent` from `scoring_rules.py`: offset-coordinate hex
adjacency including the diagonal case. -/
def are_adjacent (p1 p2 : AnimalPosition) : Bool :=
  let row_diff := (p1.row - p2.row).natAbs
  let col_diff := (p1.col - p2.col).natAbs
  (row_diff = 0 ∧ col_diff = 1) ∨ (row_diff = 1 ∧ col_diff = 0) ∨
    (row_diff = 1 ∧ col_diff = 1)

theorem are_adjacent_symm (p1 p2 : AnimalPosition) :
    are_adjacent p1 p2 = are_adjacent p2 p1 := by
  simp only [are_adjacent, decide_eq_decide]
  omega

theorem are_adjacent_irrefl (p : AnimalPosition) :
    are_adjacent p p = false := by
  simp [are_adjacent]

/-- The adjacency list built at the top of `score_bears_pairs` and
`score_salmon_runs`: `adjacency[i] = [j for j ≠ i if adjacent]`,
in ascending index order. -/
def neighborsIdx (ps : List AnimalPosition) (i : Nat) : List Nat :=
  (List.range ps.length).filter fun j =>
    j ≠ i ∧ are_adjacent (ps.getD i default) (ps.getD j default)

/-! ## `score_bears_pairs` -/

/-- The pair-detection loop of `score_bears_pairs`: scan indices in
order, and whenever an unvisited bear has exactly one neighbour whose
only neighbour is it, count a pair and mark both visited. -/
def bearsLoop (adj : Nat → List Nat) : List Nat → List Nat → Nat → Nat
  | [], _, pairs => pairs
  | i :: rest, visited, pairs =>
    if i ∈ visited then bearsLoop adj rest visited pairs
    else
      match adj i with
      | [j] =>
        if adj j = [i] then bearsLoop adj rest (i :: j :: visited) (pairs + 1)
        else bearsLoop adj rest visited pairs
      | _ => bearsLoop adj rest visited pairs

/-- Number of pairs found by `score_bears_pairs`. -/
def bearPairsCount (ps : List AnimalPosition) : Nat :=
  bearsLoop (neighborsIdx ps) (List.range ps.length) [] 0

/-- Score component of `score_bears_pairs`: `pairs * 4`. -/
def score_bears_pairs (ps : List AnimalPosition) : Int :=
  (bearPairsCount ps : Int) * 4

/-! ## `score_hawks_isolated` -/

/-- Is the hawk at index `i` isolated (no other hawk adjacent)? -/
def isIsolated (ps : List AnimalPosition) (i : Nat) : Bool :=
  (List.range ps.length).all fun j =>
    j = i ∨ ¬ are_adjacent (ps.getD i default) (ps.getD j default)

def isolatedHawksCount (ps : List AnimalPosition) : Nat :=
  ((List.range ps.length).filter (isIsolated ps)).length

/-- Score component of `score_hawks_isolated`: `isolated_count * 5`
(0 for an empty list). -/
def score_hawks_isolated (ps : List AnimalPosition) : Int :=
  if ps.isEmpty then 0 else (isolatedHawksCount ps : Int) * 5

/-! ## `score_foxes_variety` -/

/-- Per-fox points in `score_foxes_variety`, keyed by the number of
distinct adjacent animal types. -/
def foxVarietyPoints (uniqueNeighbors : Nat) : Int :=
  if uniqueNeighbors = 0 then 0
  else if uniqueNeighbors = 1 then 1
  else if uniqueNeighbors = 2 then 3
  else if uniqueNeighbors = 3 then 5
  else 8

/-- Python `len(set(fox.adjacent_animals))`. -/
def uniqueNeighborCount (fox : AnimalPosition) : Nat :=
  fox.adjacent_animals.dedup.length

/-- Score component of `score_foxes_variety`. -/
def score_foxes_variety (ps : List AnimalPosition) : Int :=
  if ps.isEmpty then 0
  else ps.foldl (fun s fox => s + foxVarietyPoints (uniqueNeighborCount fox)) 0

/-! ## `score_salmon_runs` -/

/-- `_trace_run`: depth-first traversal of run members (degree ≤ 2),
returning the run and the updated visited set.  Fuel decreases on each
recursive call; every call visits a previously unvisited node, so fuel
equal to the number of nodes is always sufficient. -/
def traceRun (adj : Nat → List Nat) : Nat → Nat → List Nat → List Nat × List Nat
  | 0, _, visited => ([], visited)
  | fuel + 1, start, visited =>
    (adj start).foldl
      (fun (acc : List Nat × List Nat) neighbor =>
        if neighbor ∈ acc.2 then acc
        else if (adj neighbor).length ≤ 2 then
          let res := traceRun adj fuel neighbor acc.2
          (acc.1 ++ res.1, res.2)
        else acc)
      ([start], start :: visited)

/-- The run-collection loop of `score_salmon_runs`: lengths of the runs
traced from each unvisited index of degree ≤ 2, in index order. -/
def salmonRunLengths (ps : List AnimalPosition) : List Nat :=
  let adj := neighborsIdx ps
  ((List.range ps.length).foldl
    (fun (acc : List Nat × List Nat) start =>
      if start ∈ acc.2 then acc
      else if (adj start).length ≤ 2 then
        let res := traceRun adj ps.length start acc.2
        (if res.1.length > 0 then acc.1 ++ [res.1.length] else acc.1, res.2)
      else acc)
    ([], [])).1

/-- Score component of `score_salmon_runs`: `sum(runs)` — the raw sum
of the run lengths (0 for an empty list). -/
def score_salmon_runs (ps : List AnimalPosition) : Int :=
  if ps.isEmpty then 0
  else ((salmonRunLengths ps).foldl (· + ·) 0 : Nat)

/-! ## `_flood_fill` and `_find_largest_contiguous_area` -/

/-- `_flood_fill` from `scoring_rules.py`.  Note the adjacency check:
only `(Δrow, Δcol) ∈ {(0,1), (1,0)}` — the diagonal case of
`_are_adjacent` is absent here.  Fuel as in `traceRun`. -/
def flood_fill (tiles : List HabitatTile) :
    Nat → Nat → List Nat → Nat × List Nat
  | 0, _, visited => (0, visited)
  | fuel + 1, start_idx, visited =>
    if start_idx ∈ visited then (0, visited)
    else
      let start_tile := tiles.getD start_idx default
      (List.range tiles.length).foldl
        (fun (acc : Nat × List Nat) i =>
          if i ∈ acc.2 then acc
          else
            let tile := tiles.getD i default
            let row_diff := (start_tile.row - tile.row).natAbs
            let col_diff := (start_tile.col - tile.col).natAbs
            if (row_diff = 0 ∧ col_diff = 1) ∨ (row_diff = 1 ∧ col_diff = 0)
            then
              let res := flood_fill tiles fuel i acc.2
              (acc.1 + res.1, res.2)
            else acc)
        (1, start_idx :: visited)

/-- `_find_largest_contiguous_area`. -/
def find_largest_contiguous_area (tiles : List HabitatTile) : Nat :=
  if tiles.isEmpty then 0
  else
    ((List.range tiles.length).foldl
      (fun (acc : Nat × List Nat) i =>
        if i ∈ acc.2 then acc
        else
          let res := flood_fill tiles tiles.length i acc.2
          (max acc.1 res.1, res.2))
      (0, [])).1

/-! ## `CascadiaScorer._score_player`: the summary-based scoring path -/

/-- Python `k.isdigit()` (ASCII digits). -/
def isDigitStr (s : String) : Bool := ¬ s.data.isEmpty ∧ s.data.all Char.isDigit

/-- Python `int(k)` for a digit string. -/
def natOfDigits (s : String) : Nat :=
  s.data.foldl (fun a c => a * 10 + (c.toNat - 48)) 0

/-- Python `max` over a list of naturals (call sites guarantee the list
is non-empty). -/
def maxNatList (l : List Nat) : Nat := l.foldl max 0

/-- The default elk table in `_score_player`:
`{'1': 2, '2': 5, '3': 9, '4+': 13}`. -/
def defaultElkRules : List (String × Int) :=
  [("1", 2), ("2", 5), ("3", 9), ("4+", 13)]

/-- The default fox table in `_score_player`:
`{'1': 1, '2': 2, '3': 3, '4': 4, '5': 5}`. -/
def defaultFoxRules : List (String × Int) :=
  [("1", 1), ("2", 2), ("3", 3), ("4", 4), ("5", 5)]

/-- Elk points for one line length: table lookup on `str(length)`, else
the `'4+'` bucket (default 13) for lengths ≥ 4, else 0. -/
def elkPts (rules : List (String × Int)) (length : Nat) : Int :=
  match dictLookup rules (strNat length) with
  | some v => v
  | none => if 4 ≤ length then dictGetD rules "4+" 13 else 0

/-- Salmon points for one run length: table lookup on `str(length)`,
else the `'5+'` bucket (default 0) for lengths ≥ 5, else 0. -/
def salmonPts (rules : List (String × Int)) (length : Nat) : Int :=
  match dictLookup rules (strNat length) with
  | some v => v
  | none => if 5 ≤ length then dictGetD rules "5+" 0 else 0

/-- Hawk points for the total isolated-hawk count: table lookup on
`str(count)`; otherwise, for a positive count, the value at the
*largest numeric key* of the table when the count reaches it. -/
def hawkPts (rules : List (String × Int)) (count : Nat) : Int :=
  match dictLookup rules (strNat count) with
  | some v => v
  | none =>
    if 0 < count then
      let keys := (rules.map Prod.fst).filter isDigitStr
      if ¬ keys.isEmpty then
        let max_k := maxNatList (keys.map natOfDigits)
        if max_k ≤ count then dictGetD rules (strNat max_k) 0 else 0
      else 0
    else 0

/-- Fox points for one unique-neighbour count:
`fox_rules.get(str(count), count)` — the fallback is the count itself. -/
def foxPts (rules : List (String × Int)) (count : Nat) : Int :=
  (dictLookup rules (strNat count)).getD (count : Int)

/-- The elk accumulation loop of `_score_player`. -/
def elkLoopTotal (rules : List (String × Int)) (lines : List Nat) : Int :=
  lines.foldl (fun acc l => acc + elkPts rules l) 0

/-- The salmon accumulation loop of `_score_player`. -/
def salmonLoopTotal (rules : List (String × Int)) (runs : List Nat) : Int :=
  runs.foldl (fun acc l => acc + salmonPts rules l) 0

/-- The fox accumulation loop of `_score_player`. -/
def foxLoopTotal (rules : List (String × Int)) (counts : List Nat) : Int :=
  counts.foldl (fun acc c => acc + foxPts rules c) 0

/-- The bear pair value: `scoring_cards['bear']['scoring']['pair']`
when present, else the fallback 4. -/
def bearPairVal (cards : ScoringCards) : Int :=
  ((cards.bear.bind fun d => dictLookup d "pair").getD 4)

/-- `CascadiaScorer._score_player`: scores one board from its
pre-reduced pattern summary; majority bonuses start empty and the
total is animal scores + habitat total + nature tokens. -/
def score_player (board : PlayerBoard) (cards : ScoringCards) : PlayerScore :=
  let patterns := board.wildlife_patterns
  let bear_pairs := patterns.bear_pairs.getD 0
  let bearScore := (bear_pairs : Int) * bearPairVal cards
  let elkScore := elkLoopTotal (cards.elk.getD defaultElkRules)
    (patterns.elk_lines.getD [])
  let salmonScore := salmonLoopTotal (cards.salmon.getD [])
    (patterns.salmon_runs.getD [])
  let hawkScore := hawkPts (cards.hawk.getD []) (patterns.isolated_hawks.getD 0)
  let foxScore := foxLoopTotal (cards.fox.getD defaultFoxRules)
    (patterns.fox_neighbors.getD [])
  let animal_scores := [("bear", bearScore), ("elk", elkScore),
    ("salmon", salmonScore), ("hawk", hawkScore), ("fox", foxScore)]
  let habitat_scores := board.largest_habitats
  let habitat_total := sumValues habitat_scores
  { player_id := board.player_id
    animal_scores := animal_scores
    habitat_scores := habitat_scores
    habitat_total := habitat_total
    nature_tokens := board.nature_tokens
    majority_bonuses := []
    total_score := sumValues animal_scores + habitat_total + board.nature_tokens }

/-! ## Python's stable descending sort (`list.sort(key=..., reverse=True)`,
`sorted(..., key=..., reverse=True)`) -/

/-- Stable descending insertion: the inserted element goes in front of
the first element it is not strictly below, so elements with equal keys
keep their original relative order, exactly as in Python's stable sort
with `reverse=True`. -/
def insertDescBy {α : Type} (lt : α → α → Bool) (x : α) : List α → List α
  | [] => [x]
  | y :: ys => if lt x y then y :: insertDescBy lt x ys else x :: y :: ys

/-- Stable descending sort by the strict comparison `lt`. -/
def sortDescBy {α : Type} (lt : α → α → Bool) : List α → List α
  | [] => []
  | x :: xs => insertDescBy lt x (sortDescBy lt xs)

theorem insertDescBy_perm {α : Type} (lt : α → α → Bool) (x : α)
    (l : List α) : List.Perm (insertDescBy lt x l) (x :: l) := by
  induction l with
  | nil => simp [insertDescBy]
  | cons y ys ih =>
    by_cases h : lt x y
    · simp only [insertDescBy, if_pos h]
      exact List.Perm.trans (ih.cons y) (List.Perm.swap x y ys)
    · simp only [insertDescBy, if_neg h]
      exact List.Perm.refl _

theorem sortDescBy_perm {α : Type} (lt : α → α → Bool) (l : List α) :
    List.Perm (sortDescBy lt l) l := by
  induction l with
  | nil => simp [sortDescBy]
  | cons x xs ih =>
    exact List.Perm.trans (insertDescBy_perm lt x (sortDescBy lt xs))
      (ih.cons x)

theorem sortDescBy_length {α : Type} (lt : α → α → Bool) (l : List α) :
    (sortDescBy lt l).length = l.length :=
  (sortDescBy_perm lt l).length_eq

theorem insertDescBy_pairwise {α : Type} (lt : α → α → Bool)
    (hasym : ∀ a b, lt a b = true → lt b a = false)
    (hntrans : ∀ a b c, lt a b = false → lt b c = false → lt a c = false)
    (x : α) (l : List α) (hl : l.Pairwise fun a b => lt a b = false) :
    (insertDescBy lt x l).Pairwise fun a b => lt a b = false := by
  induction l with
  | nil => simp [insertDescBy]
  | cons y ys ih =>
    rcases List.pairwise_cons.mp hl with ⟨hy, hys⟩
    by_cases h : lt x y
    · simp only [insertDescBy, if_pos h]
      refine List.pairwise_cons.mpr ⟨?_, ih hys⟩
      intro z hz
      rcases List.mem_cons.mp ((insertDescBy_perm lt x ys).mem_iff.mp hz)
        with hz | hz
      · rw [hz]; exact hasym x y h
      · exact hy z hz
    · simp only [insertDescBy, if_neg h]
      refine List.pairwise_cons.mpr ⟨?_, hl⟩
      intro z hz
      rcases List.mem_cons.mp hz with hz | hz
      · rw [hz]; simpa using h
      · exact hntrans x y z (by simpa using h) (hy z hz)

theorem sortDescBy_pairwise {α : Type} (lt : α → α → Bool)
    (hasym : ∀ a b, lt a b = true → lt b a = false)
    (hntrans : ∀ a b c, lt a b = false → lt b c = false → lt a c = false)
    (l : List α) :
    (sortDescBy lt l).Pairwise fun a b => lt a b = false := by
  induction l with
  | nil => simp [sortDescBy]
  | cons x xs ih => exact insertDescBy_pairwise lt hasym hntrans x _ ih

/-! ## `CascadiaScorer._add_bonus` and `_calculate_majority_bonuses` -/

/-- `_add_bonus`: set `majority_bonuses[terrain] = bonus` on the first
player whose id matches, then stop. -/
def add_bonus (pss : List PlayerScore) (pid : Int) (terrain : String)
    (bonus : Int) : List PlayerScore :=
  match pss with
  | [] => []
  | ps :: rest =>
    if ps.player_id = pid then
      { ps with majority_bonuses := dictSet ps.majority_bonuses terrain bonus }
        :: rest
    else ps :: add_bonus rest pid terrain bonus

/-- The five terrain types iterated by `_calculate_majority_bonuses`. -/
def terrainTypes : List String :=
  ["mountain", "forest", "prairie", "wetland", "river"]

/-- The strict comparison used when sorting `(player_id, score)` pairs
descending by score. -/
def scoreLt (a b : Int × Int) : Bool := decide (a.2 < b.2)

/-- The habitat score of each player for one terrain, paired with the
player id, in player order (the `scores` list before sorting). -/
def terrainScores (pss : List PlayerScore) (terrain : String) :
    List (Int × Int) :=
  pss.map fun ps => (ps.player_id, dictGetD ps.habitat_scores terrain 0)

/-- One iteration of the terrain loop in `_calculate_majority_bonuses`:
sort this terrain's scores descending and assign bonuses by the
2-player or 3-4-player rule. -/
def applyTerrain (numPlayers : Nat) (pss : List PlayerScore)
    (terrain : String) : List PlayerScore :=
  let scores := terrainScores pss terrain
  let sorted := sortDescBy scoreLt scores
  let s0 := sorted.getD 0 (0, 0)
  let s1 := sorted.getD 1 (0, 0)
  if numPlayers = 2 then
    if s1.2 < s0.2 then add_bonus pss s0.1 terrain 2
    else if s0.2 = s1.2 ∧ 0 < s0.2 then
      add_bonus (add_bonus pss s0.1 terrain 1) s1.1 terrain 1
    else pss
  else
    let max_score := s0.2
    if max_score = 0 then pss
    else
      let tied_for_first := sorted.filter fun s => decide (s.2 = max_score)
      if tied_for_first.length = 1 then
        let afterFirst := add_bonus pss (tied_for_first.getD 0 (0, 0)).1
          terrain 3
        if 1 < scores.length then
          let second_score := s1.2
          if 0 < second_score then
            let tied_for_second := sorted.filter fun s =>
              decide (s.2 = second_score)
            if tied_for_second.length = 1 then
              add_bonus afterFirst (tied_for_second.getD 0 (0, 0)).1 terrain 1
            else afterFirst
          else afterFirst
        else afterFirst
      else if tied_for_first.length = 2 then
        tied_for_first.foldl (fun acc w => add_bonus acc w.1 terrain 2) pss
      else
        tied_for_first.foldl (fun acc w => add_bonus acc w.1 terrain 1) pss

/-- The final total recomputation of `_calculate_majority_bonuses`. -/
def recomputeTotals (pss : List PlayerScore) : List PlayerScore :=
  pss.map fun ps =>
    { ps with total_score := sumValues ps.animal_scores + ps.habitat_total +
        sumValues ps.majority_bonuses + ps.nature_tokens }

/-- `_calculate_majority_bonuses`. -/
def calculate_majority_bonuses (pss : List PlayerScore) : List PlayerScore :=
  recomputeTotals (terrainTypes.foldl (applyTerrain pss.length) pss)

/-! ## `CascadiaScorer.determine_winner` -/

/-- The strict comparison used when sorting players descending by the
key `(total_score, nature_tokens)` (Python tuple order). -/
def winnerLt (a b : PlayerScore) : Bool :=
  decide (a.total_score < b.total_score ∨
    (a.total_score = b.total_score ∧ a.nature_tokens < b.nature_tokens))

def tiedMsg (pid : Int) : String :=
  s!"Player {pid} wins (tied, victory shared)"

def tiebreakMsg (pid : Int) : String :=
  s!"Player {pid} wins on tiebreaker (nature tokens)"

def clearWinMsg (pid : Int) (total : Int) : String :=
  s!"Player {pid} wins with {total} points"

/-- `determine_winner`: sort descending by `(total_score,
nature_tokens)` and report the top player with an explanation. -/
def determine_winner (pss : List PlayerScore) : Int × String :=
  let sorted := sortDescBy winnerLt pss
  let winner := sorted.getD 0 default
  if 1 < sorted.length ∧
      (sorted.getD 0 default).total_score =
        (sorted.getD 1 default).total_score then
    if (sorted.getD 0 default).nature_tokens =
        (sorted.getD 1 default).nature_tokens then
      (winner.player_id, tiedMsg winner.player_id)
    else (winner.player_id, tiebreakMsg winner.player_id)
  else (winner.player_id, clearWinMsg winner.player_id winner.total_score)

/-! ## Helper lemmas: accumulation loops are sums -/

theorem foldl_add_map (f : Nat → Int) (l : List Nat) :
    ∀ a : Int, l.foldl (fun acc x => acc + f x) a = a + (l.map f).sum := by
  induction l with
  | nil => intro a; simp
  | cons x xs ih =>
    intro a
    simp only [List.foldl_cons, List.map_cons, List.sum_cons, ih]
    ring

theorem elkLoopTotal_eq_sum (rules : List (String × Int)) (lines : List Nat) :
    elkLoopTotal rules lines = (lines.map (elkPts rules)).sum := by
  simpa [elkLoopTotal] using foldl_add_map (elkPts rules) lines 0

theorem salmonLoopTotal_eq_sum (rules : List (String × Int))
    (runs : List Nat) :
    salmonLoopTotal rules runs = (runs.map (salmonPts rules)).sum := by
  simpa [salmonLoopTotal] using foldl_add_map (salmonPts rules) runs 0

theorem foxLoopTotal_eq_sum (rules : List (String × Int))
    (counts : List Nat) :
    foxLoopTotal rules counts = (counts.map (foxPts rules)).sum := by
  simpa [foxLoopTotal] using foldl_add_map (foxPts rules) counts 0

/-! ## Claim C6: the total-score invariant -/

/-- **C6.** For every player, after `_score_player` returns and again for
every player produced by `_calculate_majority_bonuses`, the
`PlayerScore`'s `total_score` equals the sum of its own fields: the sum
of the `animal_scores` values, plus `habitat_total`, plus the sum of the
`majority_bonuses` values, plus `nature_tokens`. -/
theorem totalScore_invariant :
    (∀ (board : PlayerBoard) (cards : ScoringCards),
      (score_player board cards).total_score =
        sumValues (score_player board cards).animal_scores +
        (score_player board cards).habitat_total +
        sumValues (score_player board cards).majority_bonuses +
        (score_player board cards).nature_tokens) ∧
    (∀ (pss : List PlayerScore), ∀ ps ∈ calculate_majority_bonuses pss,
      ps.total_score = sumValues ps.animal_scores + ps.habitat_total +
        sumValues ps.majority_bonuses + ps.nature_tokens) := by
  constructor
  · intro board cards
    simp [score_player, sumValues]
  · intro pss ps hps
    simp only [calculate_majority_bonuses, recomputeTotals, List.mem_map]
      at hps
    obtain ⟨q, _, rfl⟩ := hps
    rfl

/-- Witness for `totalScore_invariant`: a concrete two-player game. -/
theorem totalScore_invariant_witness :
    ({ player_id := 1, animal_scores := [("bear", 4)],
       habitat_scores := [("forest", 2)], habitat_total := 2,
       nature_tokens := 3, majority_bonuses := [("forest", 2)],
       total_score := 11 } : PlayerScore) ∈
      calculate_majority_bonuses
        [⟨1, [("bear", 4)], [("forest", 2)], 2, 3, [], 9⟩,
         ⟨2, [("bear", 0)], [("forest", 1)], 1, 0, [], 1⟩] ∧
    (11 : Int) = sumValues [("bear", (4 : Int))] + 2 +
      sumValues [("forest", (2 : Int))] + 3 := by
  refine ⟨by decide, ?_⟩
  have h := totalScore_invariant.2
    [⟨1, [("bear", 4)], [("forest", 2)], 2, 3, [], 9⟩,
     ⟨2, [("bear", 0)], [("forest", 1)], 1, 0, [], 1⟩]
    { player_id := 1, animal_scores := [("bear", 4)],
      habitat_scores := [("forest", 2)], habitat_total := 2,
      nature_tokens := 3, majority_bonuses := [("forest", 2)],
      total_score := 11 } (by decide)
  simpa using h

/-! ## Claim C2: open-ended bucket handling -/

/-- The default hawk table of scoring Card A, as documented in the
comments of `_score_player`: numeric keys `'1'..'7'` and the open-ended
bucket `'8+' = 26`. -/
def hawkTableCardA : List (String × Int) :=
  [("1", 2), ("2", 5), ("3", 8), ("4", 11), ("5", 14), ("6", 18),
   ("7", 22), ("8+", 26)]

/-- The default salmon table of scoring Card A, as documented in the
comments of `_score_player`: `1=2, 2=5, 3=8, 4=11, 5+=14`. -/
def salmonTableCardA : List (String × Int) :=
  [("1", 2), ("2", 5), ("3", 8), ("4", 11), ("5+", 14)]

theorem lookup_hawkCardA_eq_none (n : Nat) (h : 8 ≤ n) :
    dictLookup hawkTableCardA (strNat n) = none := by
  have d1 : ("1" : String) ≠ strNat n := fun hh =>
    absurd (strNat_inj ((show strNat 1 = "1" by decide).trans hh)) (by omega)
  have d2 : ("2" : String) ≠ strNat n := fun hh =>
    absurd (strNat_inj ((show strNat 2 = "2" by decide).trans hh)) (by omega)
  have d3 : ("3" : String) ≠ strNat n := fun hh =>
    absurd (strNat_inj ((show strNat 3 = "3" by decide).trans hh)) (by omega)
  have d4 : ("4" : String) ≠ strNat n := fun hh =>
    absurd (strNat_inj ((show strNat 4 = "4" by decide).trans hh)) (by omega)
  have d5 : ("5" : String) ≠ strNat n := fun hh =>
    absurd (strNat_inj ((show strNat 5 = "5" by decide).trans hh)) (by omega)
  have d6 : ("6" : String) ≠ strNat n := fun hh =>
    absurd (strNat_inj ((show strNat 6 = "6" by decide).trans hh)) (by omega)
  have d7 : ("7" : String) ≠ strNat n := fun hh =>
    absurd (strNat_inj ((show strNat 7 = "7" by decide).trans hh)) (by omega)
  have d8 : ("8+" : String) ≠ strNat n :=
    (strNat_ne_of_nonDigit n "8+" '+' (by decide) (by decide)).symm
  simp [hawkTableCardA, dictLookup, d1, d2, d3, d4, d5, d6, d7, d8]

theorem lookup_elkDefault_eq_none (n : Nat) (h : 4 ≤ n) :
    dictLookup defaultElkRules (strNat n) = none := by
  have d1 : ("1" : String) ≠ strNat n := fun hh =>
    absurd (strNat_inj ((show strNat 1 = "1" by decide).trans hh)) (by omega)
  have d2 : ("2" : String) ≠ strNat n := fun hh =>
    absurd (strNat_inj ((show strNat 2 = "2" by decide).trans hh)) (by omega)
  have d3 : ("3" : String) ≠ strNat n := fun hh =>
    absurd (strNat_inj ((show strNat 3 = "3" by decide).trans hh)) (by omega)
  have d4 : ("4+" : String) ≠ strNat n :=
    (strNat_ne_of_nonDigit n "4+" '+' (by decide) (by decide)).symm
  simp [defaultElkRules, dictLookup, d1, d2, d3, d4]

theorem lookup_salmonCardA_eq_none (n : Nat) (h : 5 ≤ n) :
    dictLookup salmonTableCardA (strNat n) = none := by
  have d1 : ("1" : String) ≠ strNat n := fun hh =>
    absurd (strNat_inj ((show strNat 1 = "1" by decide).trans hh)) (by omega)
  have d2 : ("2" : String) ≠ strNat n := fun hh =>
    absurd (strNat_inj ((show strNat 2 = "2" by decide).trans hh)) (by omega)
  have d3 : ("3" : String) ≠ strNat n := fun hh =>
    absurd (strNat_inj ((show strNat 3 = "3" by decide).trans hh)) (by omega)
  have d4 : ("4" : String) ≠ strNat n := fun hh =>
    absurd (strNat_inj ((show strNat 4 = "4" by decide).trans hh)) (by omega)
  have d5 : ("5+" : String) ≠ strNat n :=
    (strNat_ne_of_nonDigit n "5+" '+' (by decide) (by decide)).symm
  simp [salmonTableCardA, dictLookup, d1, d2, d3, d4, d5]

/-- **C2 (corrected).** Elk line lengths of 4 or more score the `'4+'`
bucket value (13) under the default elk table, and salmon run lengths of
5 or more score the `'5+'` bucket value (14) under the Card-A salmon
table; but an isolated-hawk count of 8 or more under the default hawk
table scores the value of the highest *numeric* key (`'7'` = 22), not
the textual `'8+'` bucket value 26 — the hawk path never reads its
open-ended bucket. -/
theorem bucket_handling :
    (∀ n, 8 ≤ n → hawkPts hawkTableCardA n = 22) ∧
    (∀ len, 4 ≤ len → elkPts defaultElkRules len = 13) ∧
    (∀ len, 5 ≤ len → salmonPts salmonTableCardA len = 14) := by
  refine ⟨?_, ?_, ?_⟩
  · intro n hn
    have hlook := lookup_hawkCardA_eq_none n hn
    have hkeys : (hawkTableCardA.map Prod.fst).filter isDigitStr =
        ["1", "2", "3", "4", "5", "6", "7"] := by decide
    have hmax : maxNatList ((["1", "2", "3", "4", "5", "6", "7"] :
        List String).map natOfDigits) = 7 := by decide
    have hget : dictGetD hawkTableCardA (strNat 7) 0 = 22 := by decide
    simp only [hawkPts, hlook, hkeys, hmax, hget]
    rw [if_pos (by omega : 0 < n)]
    simp [if_pos (by omega : 7 ≤ n)]
  · intro len hlen
    have hlook := lookup_elkDefault_eq_none len hlen
    simp [elkPts, hlook, if_pos hlen]
    decide
  · intro len hlen
    have hlook := lookup_salmonCardA_eq_none len hlen
    simp [salmonPts, hlook, if_pos hlen]
    decide

/-- Witness for `bucket_handling` at counts 8, 4 and 5. -/
theorem bucket_handling_witness :
    ((8 : Nat) ≤ 8 ∧ hawkPts hawkTableCardA 8 = 22) ∧
    ((4 : Nat) ≤ 4 ∧ elkPts defaultElkRules 4 = 13) ∧
    ((5 : Nat) ≤ 5 ∧ salmonPts salmonTableCardA 5 = 14) :=
  ⟨⟨by decide, bucket_handling.1 8 (by decide)⟩,
   ⟨by decide, bucket_handling.2.1 4 (by decide)⟩,
   ⟨by decide, bucket_handling.2.2 5 (by decide)⟩⟩

/-- **C2 counterexample.** Under the default hawk table (numeric keys up
to `'7'`, bucket `'8+' = 26`), a count of 8 isolated hawks — strictly
greater than the highest numeric key — scores 22, not the bucket value
26 that the claim requires. -/
theorem bucket_handling_cex :
    dictLookup hawkTableCardA "8+" = some 26 ∧
    hawkPts hawkTableCardA 8 = 22 ∧ (22 : Int) ≠ 26 := by
  refine ⟨by decide, ?_, by decide⟩
  decide

/-! ## Claim C9: fall-back behaviour for sizes missing from the table -/

/-- **C9 (corrected).** A pattern size missing from its table and below
the open-ended-bucket threshold contributes zero for elk (below 4),
salmon (below 5) and hawks (below the highest numeric key), and no
lookup can fail; but a fox unique-neighbour count missing from the fox
table contributes the *count itself* (`fox_rules.get(str(count),
count)`), not zero. -/
theorem missing_size_fallback :
    (∀ (rules : List (String × Int)) (len : Nat),
      dictLookup rules (strNat len) = none → len < 4 →
        elkPts rules len = 0) ∧
    (∀ (rules : List (String × Int)) (len : Nat),
      dictLookup rules (strNat len) = none → len < 5 →
        salmonPts rules len = 0) ∧
    (∀ (rules : List (String × Int)) (n : Nat),
      dictLookup rules (strNat n) = none →
      n < maxNatList (((rules.map Prod.fst).filter isDigitStr).map
        natOfDigits) → hawkPts rules n = 0) ∧
    (∀ (rules : List (String × Int)) (c : Nat),
      dictLookup rules (strNat c) = none → foxPts rules c = (c : Int)) := by
  refine ⟨?_, ?_, ?_, ?_⟩
  · intro rules len hlook hlen
    simp only [elkPts, hlook]
    rw [if_neg (by omega : ¬ 4 ≤ len)]
  · intro rules len hlook hlen
    simp only [salmonPts, hlook]
    rw [if_neg (by omega : ¬ 5 ≤ len)]
  · intro rules n hlook hn
    simp only [hawkPts, hlook]
    split
    · split
      · rw [if_neg (by omega : ¬ maxNatList (((rules.map Prod.fst).filter
          isDigitStr).map natOfDigits) ≤ n)]
      · rfl
    · rfl
  · intro rules c hlook
    simp [foxPts, hlook]

/-- Witness for `missing_size_fallback` on concrete tables. -/
theorem missing_size_fallback_witness :
    (dictLookup [("1", (2 : Int))] (strNat 3) = none ∧ (3 : Nat) < 4 ∧
      elkPts [("1", 2)] 3 = 0) ∧
    (dictLookup [("1", (2 : Int))] (strNat 4) = none ∧ (4 : Nat) < 5 ∧
      salmonPts [("1", 2)] 4 = 0) ∧
    (dictLookup hawkTableCardA (strNat 0) = none ∧
      (0 : Nat) < maxNatList (((hawkTableCardA.map Prod.fst).filter
        isDigitStr).map natOfDigits) ∧ hawkPts hawkTableCardA 0 = 0) ∧
    (dictLookup defaultFoxRules (strNat 6) = none ∧
      foxPts defaultFoxRules 6 = (6 : Int)) :=
  ⟨⟨by decide, by decide, missing_size_fallback.1 _ 3 (by decide) (by decide)⟩,
   ⟨by decide, by decide,
     missing_size_fallback.2.1 _ 4 (by decide) (by decide)⟩,
   ⟨by decide, by decide,
     missing_size_fallback.2.2.1 _ 0 (by decide) (by decide)⟩,
   ⟨by decide, missing_size_fallback.2.2.2 _ 6 (by decide)⟩⟩

/-- **C9 counterexample.** A fox whose unique-neighbour count (6) has no
entry in the default fox table (keys `'1'..'5'`) contributes 6 points,
not the zero points the claim requires. -/
theorem missing_size_fallback_cex :
    dictLookup defaultFoxRules (strNat 6) = none ∧
    foxPts defaultFoxRules 6 = 6 ∧ (6 : Int) ≠ 0 := by
  refine ⟨by decide, by decide, by decide⟩

/-! ## Claim C3: salmon scores are table-mapped in one path only -/

/-- **C3 (corrected).** In the summary-based path the salmon total is
the sum over runs of the table value of each run's length (with the
`'5+'` bucket at 5 and above and zero for missing lengths below it, as
encoded in `salmonPts`); the graph-based `score_salmon_runs`, however,
ignores the table entirely and returns the *raw sum* of the detected
run lengths. -/
theorem salmon_run_scoring :
    (∀ (rules : List (String × Int)) (runs : List Nat),
      salmonLoopTotal rules runs = (runs.map (salmonPts rules)).sum) ∧
    (∀ ps : List AnimalPosition,
      score_salmon_runs ps =
        ((salmonRunLengths ps).map (Nat.cast : Nat → Int)).sum) := by
  constructor
  · exact salmonLoopTotal_eq_sum
  · intro ps
    have hsum : ∀ (l : List Nat) (a : Nat),
        l.foldl (· + ·) a = a + l.sum := by
      intro l
      induction l with
      | nil => intro a; simp
      | cons x xs ih => intro a; simp [ih, Nat.add_assoc]
    cases ps with
    | nil => decide
    | cons p rest =>
      have h1 : score_salmon_runs (p :: rest) =
          (((salmonRunLengths (p :: rest)).foldl (· + ·) 0 : Nat) : Int) := by
        simp [score_salmon_runs]
      rw [h1, hsum, Nat.zero_add]
      exact @Nat.cast_list_sum Int _ _

/-- **C3 counterexample.** A single salmon forms one run of length 1.
Mapping it through a table with `'1' = 2` gives 2, but the graph-based
`score_salmon_runs` returns the raw length sum 1: the table-mapped rule
does not hold in the graph path. -/
theorem salmon_run_scoring_cex :
    salmonRunLengths [⟨"salmon", 0, 0, []⟩] = [1] ∧
    score_salmon_runs [⟨"salmon", 0, 0, []⟩] = 1 ∧
    ((salmonRunLengths [⟨"salmon", 0, 0, []⟩]).map
      (salmonPts [("1", 2)])).sum = 2 ∧
    (1 : Int) ≠ 2 := by
  refine ⟨by decide, by decide, by decide, by decide⟩

/-! ## Claim C4: the flood-fill adjacency versus `_are_adjacent` -/

/-- **C4 (corrected).** The habitat flood fill connects tiles only
through the two orthogonal offsets `(Δrow, Δcol) ∈ {(0,1), (1,0)}`: for
any two tiles, the largest contiguous area is 2 exactly when they are
orthogonally adjacent, and orthogonal adjacency implies `_are_adjacent`;
but the diagonal case `(Δrow, Δcol) = (1,1)` of `_are_adjacent` is *not*
connected by the flood fill, so the two relations disagree. -/
theorem flood_fill_adjacency :
    (∀ t1 t2 : HabitatTile,
      find_largest_contiguous_area [t1, t2] = 2 ↔
        (((t1.row - t2.row).natAbs = 0 ∧ (t1.col - t2.col).natAbs = 1) ∨
         ((t1.row - t2.row).natAbs = 1 ∧ (t1.col - t2.col).natAbs = 0))) ∧
    (∀ p1 p2 : AnimalPosition,
      (((p1.row - p2.row).natAbs = 0 ∧ (p1.col - p2.col).natAbs = 1) ∨
       ((p1.row - p2.row).natAbs = 1 ∧ (p1.col - p2.col).natAbs = 0)) →
      are_adjacent p1 p2 = true) := by
  constructor
  · intro t1 t2
    have hrange : List.range 2 = [0, 1] := by decide
    by_cases h : (t1.row - t2.row = 0 ∧ (t1.col - t2.col).natAbs = 1) ∨
        ((t1.row - t2.row).natAbs = 1 ∧ t1.col - t2.col = 0)
    · simp [find_largest_contiguous_area, flood_fill, hrange, h]
    · simp [find_largest_contiguous_area, flood_fill, hrange, h]
  · intro p1 p2 h
    simp only [are_adjacent, decide_eq_true_eq]
    rcases h with ⟨h1, h2⟩ | ⟨h1, h2⟩
    · exact Or.inl ⟨h1, h2⟩
    · exact Or.inr (Or.inl ⟨h1, h2⟩)

/-- Witness for `flood_fill_adjacency` on concrete tiles/positions. -/
theorem flood_fill_adjacency_witness :
    (find_largest_contiguous_area [⟨"forest", 0, 0⟩, ⟨"forest", 0, 1⟩] = 2 ∧
      ((((0 : Int) - 0).natAbs = 0 ∧ ((0 : Int) - 1).natAbs = 1) ∨
       (((0 : Int) - 0).natAbs = 1 ∧ ((0 : Int) - 1).natAbs = 0))) ∧
    are_adjacent ⟨"elk", 0, 0, []⟩ ⟨"elk", 0, 1, []⟩ = true :=
  ⟨⟨(flood_fill_adjacency.1 ⟨"forest", 0, 0⟩ ⟨"forest", 0, 1⟩).mpr
      (by decide), by decide⟩,
   flood_fill_adjacency.2 ⟨"elk", 0, 0, []⟩ ⟨"elk", 0, 1, []⟩ (by decide)⟩

/-- **C4 counterexample.** Two tiles at `(0,0)` and `(1,1)` satisfy
`_are_adjacent` (the diagonal case), yet the flood fill leaves them in
separate components (largest area 1, not 2): the flood-fill adjacency
does not agree with `_are_adjacent`. -/
theorem flood_fill_adjacency_cex :
    are_adjacent ⟨"forest", 0, 0, []⟩ ⟨"forest", 1, 1, []⟩ = true ∧
    find_largest_contiguous_area [⟨"forest", 0, 0⟩, ⟨"forest", 1, 1⟩] = 1 ∧
    (1 : Nat) ≠ 2 := by
  refine ⟨by decide, by decide, by decide⟩

/-! ## Claim C1: graph-based versus summary-based scoring -/

/-- **C1 (corrected).** For bears the two call paths agree: when the
scoring cards carry no bear entry, the summary-based `'bear'` score of
`_score_player` on the pair count derived from the board equals the
graph-based `score_bears_pairs` (both are 4 points per detected pair).
The salmon, hawk and fox detectors do *not* agree with the
summary-based path in general (see the counterexample). -/
theorem graph_summary_bear_equivalence :
    ∀ (bps : List AnimalPosition) (board : PlayerBoard)
      (cards : ScoringCards),
      cards.bear = none →
      board.wildlife_patterns.bear_pairs = some (bearPairsCount bps) →
      dictLookup (score_player board cards).animal_scores "bear" =
        some (score_bears_pairs bps) := by
  intro bps board cards hbear hpatt
  simp [score_player, dictLookup, score_bears_pairs, bearPairVal, hbear,
    hpatt]

/-- Witness for `graph_summary_bear_equivalence`: two mutually adjacent
bears, scored through both call paths. -/
theorem graph_summary_bear_equivalence_witness :
    (ScoringCards.bear ⟨none, none, none, none, none⟩ = none) ∧
    (PlayerBoard.wildlife_patterns
        ⟨1, 0, [], ⟨some 1, none, none, none, none⟩⟩).bear_pairs =
      some (bearPairsCount [⟨"bear", 0, 0, []⟩, ⟨"bear", 0, 1, []⟩]) ∧
    dictLookup (score_player ⟨1, 0, [], ⟨some 1, none, none, none, none⟩⟩
        ⟨none, none, none, none, none⟩).animal_scores "bear" =
      some (score_bears_pairs [⟨"bear", 0, 0, []⟩, ⟨"bear", 0, 1, []⟩]) :=
  ⟨by decide, by decide,
   graph_summary_bear_equivalence
     [⟨"bear", 0, 0, []⟩, ⟨"bear", 0, 1, []⟩]
     ⟨1, 0, [], ⟨some 1, none, none, none, none⟩⟩
     ⟨none, none, none, none, none⟩ (by decide) (by decide)⟩

/-- **C1 counterexample.** A board with one hawk: the graph-based
`score_hawks_isolated` yields 5 points, but `_score_player`, fed the
pattern summary derived from the same board (one isolated hawk) and the
same (empty) scoring cards, yields 0 — the two call paths do not
produce identical per-species scores. -/
theorem graph_summary_equivalence_cex :
    isolatedHawksCount [⟨"hawk", 0, 0, []⟩] = 1 ∧
    score_hawks_isolated [⟨"hawk", 0, 0, []⟩] = 5 ∧
    dictLookup (score_player
        ⟨1, 0, [], ⟨none, none, none,
          some (isolatedHawksCount [⟨"hawk", 0, 0, []⟩]), none⟩⟩
        ⟨none, none, none, none, none⟩).animal_scores "hawk" = some 0 ∧
    (5 : Int) ≠ 0 := by
  refine ⟨by decide, by decide, by decide, by decide⟩

/-! ## Claim C10: winner determination and its tiebreak reporting -/

theorem winnerLt_irrefl (a : PlayerScore) : winnerLt a a = false := by
  simp [winnerLt]

theorem winnerLt_asymm (a b : PlayerScore) (h : winnerLt a b = true) :
    winnerLt b a = false := by
  simp only [winnerLt, decide_eq_true_eq] at h
  simp only [winnerLt, decide_eq_false_iff_not]
  omega

theorem winnerLt_negtrans (a b c : PlayerScore)
    (hab : winnerLt a b = false) (hbc : winnerLt b c = false) :
    winnerLt a c = false := by
  simp only [winnerLt, decide_eq_false_iff_not] at hab hbc ⊢
  omega

/-- **C10.** `determine_winner` sorts the players descending by the key
`(total_score, nature_tokens)` and reports the head of the sort (which
is maximal for that key among all players); when the top two players
share `total_score` and `nature_tokens` the returned explanation is the
shared-victory message naming the top player; when they share
`total_score` but differ in `nature_tokens` it is the nature-token
tiebreak message; no further field takes part in tie-breaking. -/
theorem winner_reporting (pss : List PlayerScore) (h2 : 2 ≤ pss.length) :
    (determine_winner pss).1 =
      ((sortDescBy winnerLt pss).getD 0 default).player_id ∧
    (∀ q ∈ pss,
      winnerLt ((sortDescBy winnerLt pss).getD 0 default) q = false) ∧
    (((sortDescBy winnerLt pss).getD 0 default).total_score =
        ((sortDescBy winnerLt pss).getD 1 default).total_score →
      ((sortDescBy winnerLt pss).getD 0 default).nature_tokens =
        ((sortDescBy winnerLt pss).getD 1 default).nature_tokens →
      determine_winner pss =
        (((sortDescBy winnerLt pss).getD 0 default).player_id,
          tiedMsg ((sortDescBy winnerLt pss).getD 0 default).player_id)) ∧
    (((sortDescBy winnerLt pss).getD 0 default).total_score =
        ((sortDescBy winnerLt pss).getD 1 default).total_score →
      ((sortDescBy winnerLt pss).getD 0 default).nature_tokens ≠
        ((sortDescBy winnerLt pss).getD 1 default).nature_tokens →
      determine_winner pss =
        (((sortDescBy winnerLt pss).getD 0 default).player_id,
          tiebreakMsg ((sortDescBy winnerLt pss).getD 0 default).player_id))
    := by
  have hlen : (sortDescBy winnerLt pss).length = pss.length :=
    sortDescBy_length winnerLt pss
  have hpair := sortDescBy_pairwise winnerLt winnerLt_asymm
    winnerLt_negtrans pss
  have hperm := sortDescBy_perm winnerLt pss
  rcases hS : sortDescBy winnerLt pss with _ | ⟨w, _ | ⟨s, rest⟩⟩
  · rw [hS] at hlen; simp at hlen; omega
  · rw [hS] at hlen; simp at hlen; omega
  · rw [hS] at hpair hperm
    have hw : ∀ q ∈ pss, winnerLt w q = false := by
      intro q hq
      have hq' : q ∈ w :: s :: rest := hperm.symm.subset hq
      rcases List.mem_cons.mp hq' with rfl | hq'
      · exact winnerLt_irrefl q
      · exact (List.pairwise_cons.mp hpair).1 q hq'
    refine ⟨?_, by simpa using hw, ?_, ?_⟩
    · simp only [determine_winner, hS]
      split
      · split <;> rfl
      · rfl
    · intro ht hn
      simp only [determine_winner, hS, List.getD_cons_zero,
        List.getD_cons_succ] at ht hn ⊢
      rw [if_pos ⟨by simp, ht⟩, if_pos hn]
    · intro ht hn
      simp only [determine_winner, hS, List.getD_cons_zero,
        List.getD_cons_succ] at ht hn ⊢
      rw [if_pos ⟨by simp, ht⟩, if_neg hn]

/-- Witness for `winner_reporting`: two players fully tied on the key. -/
theorem winner_reporting_witness :
    (2 : Nat) ≤ ([⟨1, [], [], 0, 5, [], 20⟩, ⟨2, [], [], 0, 5, [], 20⟩] :
      List PlayerScore).length ∧
    determine_winner [⟨1, [], [], 0, 5, [], 20⟩, ⟨2, [], [], 0, 5, [], 20⟩]
      = (1, tiedMsg 1) := by
  refine ⟨by decide, ?_⟩
  have h := winner_reporting
    [⟨1, [], [], 0, 5, [], 20⟩, ⟨2, [], [], 0, 5, [], 20⟩] (by decide)
  rw [h.2.2.1 (by decide) (by decide)]
  decide

/-! ## Claim C8: bear pairing is exclusive -/

/-- Index `i` opens a counted pair: its adjacency list is exactly `[j]`
for some `j > i` whose adjacency list is exactly `[i]` (mutual,
exclusive pairing; the `i < j` side is the one the scan counts). -/
def isPairLead (adj : Nat → List Nat) (i : Nat) : Bool :=
  match adj i with
  | [j] => decide (i < j) && decide (adj j = [i])
  | _ => false

/-- Invariant characterisation of the `score_bears_pairs` scan: over any
window `[k, k+m)`, provided `visited` holds exactly the members of
mutual pairs whose smaller index has been scanned, the loop adds one
pair per `isPairLead` index in the window. -/
theorem bearsLoop_spec (adj : Nat → List Nat) (hirr : ∀ i, i ∉ adj i) :
    ∀ (m k : Nat) (visited : List Nat) (pairs : Nat),
      (∀ i, i ∈ visited ↔
        ∃ j, adj i = [j] ∧ adj j = [i] ∧ (i < k ∨ j < k)) →
      bearsLoop adj (List.range' k m) visited pairs =
        pairs + (List.range' k m).countP (isPairLead adj) := by
  intro m
  induction m with
  | zero => intro k visited pairs _; simp [bearsLoop]
  | succ m ih =>
    intro k visited pairs hv
    rw [List.range'_succ]
    by_cases hkv : k ∈ visited
    · obtain ⟨j0, hadj, hadjj, hjk⟩ := (hv k).mp hkv
      have hj0k : j0 < k := by omega
      have hlead : isPairLead adj k = false := by
        simp only [isPairLead, hadj, Bool.and_eq_false_imp,
          decide_eq_true_eq, decide_eq_false_iff_not]
        intro h; omega
      simp only [bearsLoop, if_pos hkv]
      rw [ih (k + 1) visited pairs ?_, List.countP_cons, hlead]
      · simp
      · intro i
        rw [hv i]
        constructor
        · rintro ⟨j, a, b, c⟩; exact ⟨j, a, b, by omega⟩
        · rintro ⟨j, a, b, c⟩
          refine ⟨j, a, b, ?_⟩
          by_contra hcon
          push_neg at hcon
          have : i = k ∨ j = k := by omega
          rcases this with rfl | rfl
          · rw [hadj] at a
            have : j = j0 := by simpa using a.symm
            omega
          · rw [hadj] at b
            have : i = j0 := by simpa using b.symm
            omega
    · rcases hadj : adj k with _ | ⟨j, _ | ⟨j2, tl⟩⟩
      · have hlead : isPairLead adj k = false := by
          simp [isPairLead, hadj]
        simp only [bearsLoop, if_neg hkv, hadj]
        rw [ih (k + 1) visited pairs ?_, List.countP_cons, hlead]
        · simp
        · intro i
          rw [hv i]
          constructor
          · rintro ⟨j, a, b, c⟩; exact ⟨j, a, b, by omega⟩
          · rintro ⟨j, a, b, c⟩
            refine ⟨j, a, b, ?_⟩
            by_contra hcon
            push_neg at hcon
            have : i = k ∨ j = k := by omega
            rcases this with rfl | rfl
            · rw [hadj] at a; cases a
            · rw [hadj] at b; cases b
      · by_cases hmut : adj j = [k]
        · have hjk : k < j := by
            have hne : j ≠ k := by
              intro h; exact hirr k (by rw [hadj, h]; simp)
            by_contra hcon
            exact hkv ((hv k).mpr ⟨j, hadj, hmut, by omega⟩)
          have hlead : isPairLead adj k = true := by
            simp [isPairLead, hadj, hmut, hjk]
          simp only [bearsLoop, if_neg hkv, hadj, if_pos hmut]
          rw [ih (k + 1) (k :: j :: visited) (pairs + 1) ?_,
            List.countP_cons, hlead]
          · simp
            omega
          · intro i
            constructor
            · intro hi
              rcases List.mem_cons.mp hi with rfl | hi
              · exact ⟨j, hadj, hmut, by omega⟩
              rcases List.mem_cons.mp hi with rfl | hi
              · exact ⟨k, hmut, hadj, by omega⟩
              · obtain ⟨j', a, b, c⟩ := (hv i).mp hi
                exact ⟨j', a, b, by omega⟩
            · rintro ⟨j', a, b, c⟩
              by_cases hik : i = k
              · simp [hik]
              by_cases hjj : j' = k
              · subst hjj
                rw [hadj] at b
                have : i = j := by simpa using b.symm
                simp [this]
              · refine List.mem_cons.mpr (Or.inr (List.mem_cons.mpr
                  (Or.inr ((hv i).mpr ⟨j', a, b, by omega⟩))))
        · have hlead : isPairLead adj k = false := by
            simp [isPairLead, hadj, hmut]
          simp only [bearsLoop, if_neg hkv, hadj, if_neg hmut]
          rw [ih (k + 1) visited pairs ?_, List.countP_cons, hlead]
          · simp
          · intro i
            rw [hv i]
            constructor
            · rintro ⟨j', a, b, c⟩; exact ⟨j', a, b, by omega⟩
            · rintro ⟨j', a, b, c⟩
              refine ⟨j', a, b, ?_⟩
              by_contra hcon
              push_neg at hcon
              have : i = k ∨ j' = k := by omega
              rcases this with rfl | rfl
              · rw [hadj] at a
                have hj' : j' = j := by simpa using a.symm
                subst hj'
                exact hmut b
              · rw [hadj] at b
                have : i = j := by simpa using b.symm
                subst this
                exact hmut a
      · have hlead : isPairLead adj k = false := by
          simp [isPairLead, hadj]
        simp only [bearsLoop, if_neg hkv, hadj]
        rw [ih (k + 1) visited pairs ?_, List.countP_cons, hlead]
        · simp
        · intro i
          rw [hv i]
          constructor
          · rintro ⟨j', a, b, c⟩; exact ⟨j', a, b, by omega⟩
          · rintro ⟨j', a, b, c⟩
            refine ⟨j', a, b, ?_⟩
            by_contra hcon
            push_neg at hcon
            have : i = k ∨ j' = k := by omega
            rcases this with rfl | rfl
            · rw [hadj] at a; cases a
            · rw [hadj] at b; cases b

theorem not_mem_neighborsIdx_self (ps : List AnimalPosition) (i : Nat) :
    i ∉ neighborsIdx ps i := by
  intro h
  simp [neighborsIdx, List.mem_filter] at h

/-- The pair count of `score_bears_pairs` equals the number of
`isPairLead` indices: every counted pair is a mutual, exclusive
degree-1 pair, counted once. -/
theorem bearPairsCount_eq_countP (ps : List AnimalPosition) :
    bearPairsCount ps =
      (List.range ps.length).countP (isPairLead (neighborsIdx ps)) := by
  rw [bearPairsCount, List.range_eq_range']
  rw [bearsLoop_spec (neighborsIdx ps) (not_mem_neighborsIdx_self ps)
    ps.length 0 [] 0 ?_]
  · simp
  · intro i
    constructor
    · intro h; cases h
    · rintro ⟨j, _, _, c⟩; omega

/-- **C8.** Bear pairing is exclusive: the pair count of
`score_bears_pairs` equals the number of indices whose adjacency list
is exactly one bear `j` (with `i < j`) whose own adjacency list is
exactly `[i]` — so no bear is counted in more than one pair and a bear
with zero or two-or-more neighbours never contributes; in particular
three mutually adjacent bears yield 0 pairs, while exactly two bears
adjacent to each other yield exactly 1 pair. -/
theorem bear_pairing_exclusive :
    (∀ ps : List AnimalPosition, bearPairsCount ps =
      (List.range ps.length).countP (isPairLead (neighborsIdx ps))) ∧
    (∀ p1 p2 p3 : AnimalPosition, are_adjacent p1 p2 = true →
      are_adjacent p1 p3 = true → are_adjacent p2 p3 = true →
      bearPairsCount [p1, p2, p3] = 0) ∧
    (∀ p1 p2 : AnimalPosition, are_adjacent p1 p2 = true →
      bearPairsCount [p1, p2] = 1) := by
  refine ⟨bearPairsCount_eq_countP, ?_, ?_⟩
  · intro p1 p2 p3 h12 h13 h23
    have h21 : are_adjacent p2 p1 = true := by
      rw [are_adjacent_symm]; exact h12
    have h31 : are_adjacent p3 p1 = true := by
      rw [are_adjacent_symm]; exact h13
    have h32 : are_adjacent p3 p2 = true := by
      rw [are_adjacent_symm]; exact h23
    have hr : List.range 3 = [0, 1, 2] := by decide
    have h0 : neighborsIdx [p1, p2, p3] 0 = [1, 2] := by
      simp [neighborsIdx, hr, List.filter, h12, h13]
    have h1 : neighborsIdx [p1, p2, p3] 1 = [0, 2] := by
      simp [neighborsIdx, hr, List.filter, h21, h23]
    have h2 : neighborsIdx [p1, p2, p3] 2 = [0, 1] := by
      simp [neighborsIdx, hr, List.filter, h31, h32]
    show bearsLoop (neighborsIdx [p1, p2, p3])
      (List.range [p1, p2, p3].length) [] 0 = 0
    simp only [List.length_cons, List.length_nil, hr]
    simp [bearsLoop, h0, h1, h2]
  · intro p1 p2 h12
    have h21 : are_adjacent p2 p1 = true := by
      rw [are_adjacent_symm]; exact h12
    have hr : List.range 2 = [0, 1] := by decide
    have h0 : neighborsIdx [p1, p2] 0 = [1] := by
      simp [neighborsIdx, hr, List.filter, h12]
    have h1 : neighborsIdx [p1, p2] 1 = [0] := by
      simp [neighborsIdx, hr, List.filter, h21]
    show bearsLoop (neighborsIdx [p1, p2])
      (List.range [p1, p2].length) [] 0 = 1
    simp only [List.length_cons, List.length_nil, hr]
    simp [bearsLoop, h0, h1]

/-- Witness for `bear_pairing_exclusive` on concrete positions. -/
theorem bear_pairing_exclusive_witness :
    (are_adjacent ⟨"bear", 0, 0, []⟩ ⟨"bear", 0, 1, []⟩ = true ∧
     are_adjacent ⟨"bear", 0, 0, []⟩ ⟨"bear", 1, 1, []⟩ = true ∧
     are_adjacent ⟨"bear", 0, 1, []⟩ ⟨"bear", 1, 1, []⟩ = true ∧
     bearPairsCount [⟨"bear", 0, 0, []⟩, ⟨"bear", 0, 1, []⟩,
       ⟨"bear", 1, 1, []⟩] = 0) ∧
    (are_adjacent ⟨"bear", 5, 5, []⟩ ⟨"bear", 5, 6, []⟩ = true ∧
     bearPairsCount [⟨"bear", 5, 5, []⟩, ⟨"bear", 5, 6, []⟩] = 1) :=
  ⟨⟨by decide, by decide, by decide,
    bear_pairing_exclusive.2.1 ⟨"bear", 0, 0, []⟩ ⟨"bear", 0, 1, []⟩
      ⟨"bear", 1, 1, []⟩ (by decide) (by decide) (by decide)⟩,
   ⟨by decide,
    bear_pairing_exclusive.2.2 ⟨"bear", 5, 5, []⟩ ⟨"bear", 5, 6, []⟩
      (by decide)⟩⟩

/-! ## Claim C5: infrastructure for the majority-bonus resolver -/

/-- The majority-bonus entry a given player holds for a given terrain
(`none` when the player has no entry or does not exist). -/
def lookupBonus (pss : List PlayerScore) (pid : Int) (t : String) :
    Option Int :=
  match pss with
  | [] => none
  | ps :: rest =>
    if ps.player_id = pid then dictLookup ps.majority_bonuses t
    else lookupBonus rest pid t

/-- The bonus a player effectively holds for a terrain (0 if no entry). -/
def bonusOf (pss : List PlayerScore) (pid : Int) (t : String) : Int :=
  (lookupBonus pss pid t).getD 0

theorem add_bonus_map_pid (pss : List PlayerScore) (pid : Int)
    (t : String) (v : Int) :
    (add_bonus pss pid t v).map PlayerScore.player_id =
      pss.map PlayerScore.player_id := by
  induction pss with
  | nil => rfl
  | cons ps rest ih =>
    by_cases h : ps.player_id = pid <;> simp [add_bonus, h, ih]

theorem add_bonus_length (pss : List PlayerScore) (pid : Int) (t : String)
    (v : Int) : (add_bonus pss pid t v).length = pss.length := by
  induction pss with
  | nil => rfl
  | cons ps rest ih =>
    by_cases h : ps.player_id = pid <;> simp [add_bonus, h, ih]

theorem terrainScores_add_bonus (pss : List PlayerScore) (pid : Int)
    (t t' : String) (v : Int) :
    terrainScores (add_bonus pss pid t v) t' = terrainScores pss t' := by
  induction pss with
  | nil => rfl
  | cons ps rest ih =>
    by_cases h : ps.player_id = pid <;>
      simp [add_bonus, h, terrainScores] <;>
      simpa [terrainScores] using ih

theorem lookupBonus_add_bonus_self (pss : List PlayerScore) (pid : Int)
    (t : String) (v : Int)
    (hmem : pid ∈ pss.map PlayerScore.player_id) :
    lookupBonus (add_bonus pss pid t v) pid t = some v := by
  induction pss with
  | nil => simp at hmem
  | cons ps rest ih =>
    by_cases h : ps.player_id = pid
    · simp [add_bonus, h, lookupBonus, dictLookup_dictSet_self]
    · have : pid ∈ rest.map PlayerScore.player_id := by
        rcases List.mem_map.mp hmem with ⟨q, hq, hqid⟩
        rcases List.mem_cons.mp hq with rfl | hq
        · exact absurd hqid h
        · exact List.mem_map.mpr ⟨q, hq, hqid⟩
      simp [add_bonus, h, lookupBonus, ih this]

theorem lookupBonus_add_bonus_ne_pid (pss : List PlayerScore)
    (pid pid' : Int) (t t' : String) (v : Int) (h : pid' ≠ pid) :
    lookupBonus (add_bonus pss pid t v) pid' t' =
      lookupBonus pss pid' t' := by
  have h' : ¬ pid = pid' := fun hh => h hh.symm
  induction pss with
  | nil => rfl
  | cons ps rest ih =>
    by_cases hps : ps.player_id = pid
    · simp [add_bonus, hps, lookupBonus, h']
    · by_cases hps' : ps.player_id = pid'
      · simp [add_bonus, hps, lookupBonus, hps', h]
      · simp [add_bonus, hps, lookupBonus, hps', ih]

theorem lookupBonus_add_bonus_ne_key (pss : List PlayerScore)
    (pid pid' : Int) (t t' : String) (v : Int) (h : t' ≠ t) :
    lookupBonus (add_bonus pss pid t v) pid' t' =
      lookupBonus pss pid' t' := by
  induction pss with
  | nil => rfl
  | cons ps rest ih =>
    by_cases hps : ps.player_id = pid
    · by_cases hps' : pid = pid'
      · simp [add_bonus, hps, lookupBonus, hps',
          dictLookup_dictSet_ne _ _ _ _ (fun hh => h hh.symm)]
      · simp [add_bonus, hps, lookupBonus, hps']
    · by_cases hps' : ps.player_id = pid'
      · have hpp : ¬ pid' = pid := hps' ▸ hps
        simp [add_bonus, hps, lookupBonus, hps', hpp]
      · simp [add_bonus, hps, lookupBonus, hps', ih]

theorem lookupBonus_of_empty (pss : List PlayerScore) (pid : Int)
    (t : String) (hempty : ∀ q ∈ pss, q.majority_bonuses = []) :
    lookupBonus pss pid t = none := by
  induction pss with
  | nil => rfl
  | cons ps rest ih =>
    by_cases h : ps.player_id = pid
    · simp [lookupBonus, h, hempty ps (by simp), dictLookup]
    · simp [lookupBonus, h, ih (fun q hq => hempty q (by simp [hq]))]

/-- Lookup through the per-tie fold `for winner in tied: _add_bonus`. -/
theorem lookupBonus_foldl_add_bonus (t : String) (b : Int) :
    ∀ (ws : List (Int × Int)) (X : List PlayerScore) (pid : Int),
      (∀ w ∈ ws, w.1 ∈ X.map PlayerScore.player_id) →
      lookupBonus (ws.foldl (fun acc w => add_bonus acc w.1 t b) X) pid t =
        if pid ∈ ws.map Prod.fst then some b
        else lookupBonus X pid t := by
  intro ws
  induction ws with
  | nil => intro X pid _; simp
  | cons w ws ih =>
    intro X pid hpres
    simp only [List.foldl_cons]
    rw [ih (add_bonus X w.1 t b) pid ?_]
    · by_cases hin : pid ∈ ws.map Prod.fst
      · simp [hin]
      · by_cases hw : pid = w.1
        · subst hw
          simp [hin, lookupBonus_add_bonus_self X w.1 t b
            (hpres w (by simp))]
        · simp [hin, hw, lookupBonus_add_bonus_ne_pid X w.1 pid t t b hw]
    · intro w' hw'
      rw [add_bonus_map_pid]
      exact hpres w' (by simp [hw'])

theorem foldl_add_bonus_map_pid (t : String) (b : Int) :
    ∀ (ws : List (Int × Int)) (X : List PlayerScore),
      (ws.foldl (fun acc w => add_bonus acc w.1 t b) X).map
        PlayerScore.player_id = X.map PlayerScore.player_id := by
  intro ws
  induction ws with
  | nil => intro X; rfl
  | cons w ws ih =>
    intro X
    simp only [List.foldl_cons]
    rw [ih, add_bonus_map_pid]

theorem terrainScores_foldl_add_bonus (t t' : String) (b : Int) :
    ∀ (ws : List (Int × Int)) (X : List PlayerScore),
      terrainScores (ws.foldl (fun acc w => add_bonus acc w.1 t b) X) t' =
        terrainScores X t' := by
  intro ws
  induction ws with
  | nil => intro X; rfl
  | cons w ws ih =>
    intro X
    simp only [List.foldl_cons]
    rw [ih, terrainScores_add_bonus]

theorem lookupBonus_foldl_add_bonus_ne_key (t t' : String) (b : Int)
    (h : t' ≠ t) :
    ∀ (ws : List (Int × Int)) (X : List PlayerScore) (pid : Int),
      lookupBonus (ws.foldl (fun acc w => add_bonus acc w.1 t b) X) pid t' =
        lookupBonus X pid t' := by
  intro ws
  induction ws with
  | nil => intro X pid; rfl
  | cons w ws ih =>
    intro X pid
    simp only [List.foldl_cons]
    rw [ih, lookupBonus_add_bonus_ne_key _ _ _ _ _ _ h]

theorem terrainScores_applyTerrain (num : Nat) (X : List PlayerScore)
    (t t' : String) :
    terrainScores (applyTerrain num X t) t' = terrainScores X t' := by
  simp only [applyTerrain]
  split_ifs <;>
    simp [terrainScores_add_bonus, terrainScores_foldl_add_bonus]

theorem applyTerrain_map_pid (num : Nat) (X : List PlayerScore)
    (t : String) :
    (applyTerrain num X t).map PlayerScore.player_id =
      X.map PlayerScore.player_id := by
  simp only [applyTerrain]
  split_ifs <;>
    simp [add_bonus_map_pid, foldl_add_bonus_map_pid]

theorem lookupBonus_applyTerrain_ne_key (num : Nat) (X : List PlayerScore)
    (t t' : String) (pid : Int) (h : t' ≠ t) :
    lookupBonus (applyTerrain num X t) pid t' = lookupBonus X pid t' := by
  simp only [applyTerrain]
  split_ifs <;>
    simp [lookupBonus_add_bonus_ne_key _ _ _ _ _ _ h,
      lookupBonus_foldl_add_bonus_ne_key _ _ _ h]

theorem lookupBonus_recomputeTotals (X : List PlayerScore) (pid : Int)
    (t : String) :
    lookupBonus (recomputeTotals X) pid t = lookupBonus X pid t := by
  induction X with
  | nil => rfl
  | cons ps rest ih =>
    by_cases h : ps.player_id = pid <;>
      simp [recomputeTotals, lookupBonus, h] <;>
      simpa [recomputeTotals] using ih

theorem lookupBonus_foldl_applyTerrain_not_mem (num : Nat) (t : String)
    (pid : Int) :
    ∀ (ts : List String) (X : List PlayerScore), t ∉ ts →
      lookupBonus (ts.foldl (applyTerrain num) X) pid t =
        lookupBonus X pid t := by
  intro ts
  induction ts with
  | nil => intro X _; rfl
  | cons t' ts ih =>
    intro X hnt
    simp only [List.foldl_cons]
    rw [ih (applyTerrain num X t') (fun h => hnt (by simp [h])),
      lookupBonus_applyTerrain_ne_key num X t' t pid
        (fun h => hnt (by simp [h]))]

theorem terrainScores_foldl_applyTerrain (num : Nat) (t' : String) :
    ∀ (ts : List String) (X : List PlayerScore),
      terrainScores (ts.foldl (applyTerrain num) X) t' =
        terrainScores X t' := by
  intro ts
  induction ts with
  | nil => intro X; rfl
  | cons t'' ts ih =>
    intro X
    simp only [List.foldl_cons]
    rw [ih, terrainScores_applyTerrain]

theorem foldl_applyTerrain_map_pid (num : Nat) :
    ∀ (ts : List String) (X : List PlayerScore),
      (ts.foldl (applyTerrain num) X).map PlayerScore.player_id =
        X.map PlayerScore.player_id := by
  intro ts
  induction ts with
  | nil => intro X; rfl
  | cons t'' ts ih =>
    intro X
    simp only [List.foldl_cons]
    rw [ih, applyTerrain_map_pid]

/-- Reduce the bonus a player holds after the whole resolver to the
bonus assigned by the one iteration that treats terrain `t`:
the other terrains never touch key `t`, and the `t` iteration acts on a
state with the same ids, the same `t`-scores, and the same (empty)
`t`-entries as the input. -/
theorem lookupBonus_calc_reduction (pss : List PlayerScore) (t : String)
    (ht : t ∈ terrainTypes) :
    ∃ X : List PlayerScore,
      terrainScores X t = terrainScores pss t ∧
      X.map PlayerScore.player_id = pss.map PlayerScore.player_id ∧
      (∀ pid' : Int, lookupBonus X pid' t = lookupBonus pss pid' t) ∧
      ∀ pid : Int, lookupBonus (calculate_majority_bonuses pss) pid t =
        lookupBonus (applyTerrain pss.length X t) pid t := by
  obtain ⟨pre, post, hsplit⟩ := List.append_of_mem ht
  have hnd : terrainTypes.Nodup := by decide
  rw [hsplit] at hnd
  have hpre : t ∉ pre := by
    intro h
    exact (List.disjoint_of_nodup_append hnd) h (by simp)
  have hpost : t ∉ post := by
    have := (List.nodup_append.mp hnd).2.1
    exact (List.nodup_cons.mp this).1
  refine ⟨pre.foldl (applyTerrain pss.length) pss, ?_, ?_, ?_, ?_⟩
  · exact terrainScores_foldl_applyTerrain _ _ _ _
  · exact foldl_applyTerrain_map_pid _ _ _
  · intro pid'
    exact lookupBonus_foldl_applyTerrain_not_mem _ _ _ _ _ hpre
  · intro pid
    rw [calculate_majority_bonuses, lookupBonus_recomputeTotals, hsplit,
      List.foldl_append, List.foldl_cons]
    exact lookupBonus_foldl_applyTerrain_not_mem _ _ _ _ _ hpost

theorem scoreLt_asymm (a b : Int × Int) (h : scoreLt a b = true) :
    scoreLt b a = false := by
  simp only [scoreLt, decide_eq_true_eq] at h
  simp only [scoreLt, decide_eq_false_iff_not]
  omega

theorem scoreLt_negtrans (a b c : Int × Int) (hab : scoreLt a b = false)
    (hbc : scoreLt b c = false) : scoreLt a c = false := by
  simp only [scoreLt, decide_eq_false_iff_not] at hab hbc ⊢
  omega

/-- The head of the descending sort bounds every score. -/
theorem sortDesc_head_max (S : List (Int × Int)) (s0 : Int × Int)
    (tail : List (Int × Int)) (hS : sortDescBy scoreLt S = s0 :: tail) :
    ∀ x ∈ S, x.2 ≤ s0.2 := by
  have hpair := sortDescBy_pairwise scoreLt scoreLt_asymm scoreLt_negtrans S
  have hperm := sortDescBy_perm scoreLt S
  rw [hS] at hpair hperm
  intro x hx
  rcases List.mem_cons.mp (hperm.mem_iff.mpr hx) with rfl | hx'
  · exact le_refl _
  · have := (List.pairwise_cons.mp hpair).1 x hx'
    simp only [scoreLt, decide_eq_false_iff_not] at this
    omega

/-- Every element after the first two of the descending sort is bounded
by the second. -/
theorem sortDesc_second_max (S : List (Int × Int)) (s0 s1 : Int × Int)
    (rest : List (Int × Int))
    (hS : sortDescBy scoreLt S = s0 :: s1 :: rest) :
    ∀ x ∈ s1 :: rest, x.2 ≤ s1.2 := by
  have hpair := sortDescBy_pairwise scoreLt scoreLt_asymm scoreLt_negtrans S
  rw [hS] at hpair
  intro x hx
  rcases List.mem_cons.mp hx with rfl | hx'
  · exact le_refl _
  · have := (List.pairwise_cons.mp ((List.pairwise_cons.mp hpair).2)).1 x hx'
    simp only [scoreLt, decide_eq_false_iff_not] at this
    omega

/-- A `countP`-one list has at most one satisfying element. -/
theorem countP_one_unique {α : Type} (p : α → Bool) :
    ∀ (l : List α), l.countP p = 1 →
      ∀ e₁ ∈ l, ∀ e₂ ∈ l, p e₁ = true → p e₂ = true → e₁ = e₂ := by
  intro l
  induction l with
  | nil => intro _ e₁ h₁; cases h₁
  | cons a rest ih =>
    intro hc e₁ h₁ e₂ h₂ hp₁ hp₂
    rw [List.countP_cons] at hc
    by_cases hpa : p a = true
    · have hr : rest.countP p = 0 := by
        rw [if_pos hpa] at hc; omega
      have hnone : ∀ e ∈ rest, ¬ p e = true :=
        List.countP_eq_zero.mp hr
      rcases List.mem_cons.mp h₁ with rfl | h₁'
      · rcases List.mem_cons.mp h₂ with rfl | h₂'
        · rfl
        · exact absurd hp₂ (hnone e₂ h₂')
      · exact absurd hp₁ (hnone e₁ h₁')
    · have hr : rest.countP p = 1 := by
        rw [if_neg hpa] at hc; omega
      rcases List.mem_cons.mp h₁ with rfl | h₁'
      · exact absurd hp₁ hpa
      rcases List.mem_cons.mp h₂ with rfl | h₂'
      · exact absurd hp₂ hpa
      · exact ih hr e₁ h₁' e₂ h₂' hp₁ hp₂

/-- With pairwise-distinct first components, an element of a pair list
is determined by its first component. -/
theorem fst_unique {S : List (Int × Int)}
    (hnd : (S.map Prod.fst).Pairwise (· ≠ ·)) :
    ∀ e₁ ∈ S, ∀ e₂ ∈ S, e₁.1 = e₂.1 → e₁ = e₂ := by
  induction S with
  | nil => intro e₁ h₁; cases h₁
  | cons a rest ih =>
    intro e₁ h₁ e₂ h₂ hfst
    simp only [List.map_cons, List.pairwise_cons] at hnd
    rcases List.mem_cons.mp h₁ with rfl | h₁'
    · rcases List.mem_cons.mp h₂ with rfl | h₂'
      · rfl
      · exact absurd hfst (hnd.1 e₂.1 (List.mem_map.mpr ⟨e₂, h₂', rfl⟩))
    · rcases List.mem_cons.mp h₂ with rfl | h₂'
      · exact absurd hfst.symm
          (hnd.1 e₁.1 (List.mem_map.mpr ⟨e₁, h₁', rfl⟩))
      · exact ih hnd.2 e₁ h₁' e₂ h₂' hfst

/-- `countP` of a score predicate over the sorted list equals the
`count` of that value among the raw scores. -/
theorem countP_sortDesc_eq_count (S : List (Int × Int)) (c : Int) :
    (sortDescBy scoreLt S).countP (fun s => decide (s.2 = c)) =
      (S.map Prod.snd).count c := by
  rw [(sortDescBy_perm scoreLt S).countP_eq]
  rw [List.count, List.countP_map]
  apply List.countP_congr
  intro a _
  simp [beq_iff_eq]

/-- Evaluation of the whole resolver for one terrain in the 3-4-player
regime, phrased on the descending sort `s0 :: s1 :: rest` of this
terrain's scores: the top-is-zero, unique-leader (with and without a
unique positive runner-up), two-way-tie and wider-tie branches, and the
players each branch leaves without a bonus. -/
theorem multi_player_eval (pss : List PlayerScore) (t : String)
    (ht : t ∈ terrainTypes)
    (hnd : (pss.map PlayerScore.player_id).Pairwise (· ≠ ·))
    (hempty : ∀ q ∈ pss, q.majority_bonuses = [])
    (hn2 : pss.length ≠ 2) (hlen3 : 3 ≤ pss.length)
    (s0 s1 : Int × Int) (rest : List (Int × Int))
    (hsorted : sortDescBy scoreLt (terrainScores pss t) =
      s0 :: s1 :: rest) :
    (s0.2 = 0 → ∀ pid : Int,
      bonusOf (calculate_majority_bonuses pss) pid t = 0) ∧
    (s0.2 ≠ 0 →
      (terrainScores pss t).countP (fun s => decide (s.2 = s0.2)) = 1 →
      (bonusOf (calculate_majority_bonuses pss) s0.1 t = 3) ∧
      (0 < s1.2 →
        (terrainScores pss t).countP (fun s => decide (s.2 = s1.2)) = 1 →
        bonusOf (calculate_majority_bonuses pss) s1.1 t = 1) ∧
      (∀ pid : Int, pid ≠ s0.1 → pid ≠ s1.1 →
        bonusOf (calculate_majority_bonuses pss) pid t = 0) ∧
      ((s1.2 ≤ 0 ∨ 2 ≤ (terrainScores pss t).countP
          (fun s => decide (s.2 = s1.2))) →
        ∀ pid : Int, pid ≠ s0.1 →
        bonusOf (calculate_majority_bonuses pss) pid t = 0)) ∧
    (s0.2 ≠ 0 →
      (terrainScores pss t).countP (fun s => decide (s.2 = s0.2)) = 2 →
      ∀ e ∈ terrainScores pss t, e.2 = s0.2 →
        bonusOf (calculate_majority_bonuses pss) e.1 t = 2) ∧
    (s0.2 ≠ 0 →
      3 ≤ (terrainScores pss t).countP (fun s => decide (s.2 = s0.2)) →
      ∀ e ∈ terrainScores pss t, e.2 = s0.2 →
        bonusOf (calculate_majority_bonuses pss) e.1 t = 1) ∧
    (s0.2 ≠ 0 →
      2 ≤ (terrainScores pss t).countP (fun s => decide (s.2 = s0.2)) →
      ∀ pid : Int, (∀ e ∈ terrainScores pss t, e.1 = pid → e.2 ≠ s0.2) →
        bonusOf (calculate_majority_bonuses pss) pid t = 0) := by
  obtain ⟨X, hXs, hXid, hXlook, hred⟩ := lookupBonus_calc_reduction pss t ht
  have hXnone : ∀ pid : Int, lookupBonus X pid t = none := fun pid =>
    (hXlook pid).trans (lookupBonus_of_empty pss pid t hempty)
  have hperm := sortDescBy_perm scoreLt (terrainScores pss t)
  rw [hsorted] at hperm
  have hfstS : (terrainScores pss t).map Prod.fst =
      pss.map PlayerScore.player_id := by
    simp [terrainScores, List.map_map]
  have hSnd : ((terrainScores pss t).map Prod.fst).Pairwise (· ≠ ·) := by
    rw [hfstS]; exact hnd
  have hcountP : ∀ c, (s0 :: s1 :: rest).countP
      (fun s => decide (s.2 = c)) =
      (terrainScores pss t).countP (fun s => decide (s.2 = c)) := by
    intro c
    exact (hperm.countP_eq _)
  have hs0mem : s0 ∈ terrainScores pss t := hperm.subset (by simp)
  have hs1mem : s1 ∈ terrainScores pss t := hperm.subset (by simp)
  have hmemX : ∀ e ∈ terrainScores pss t,
      e.1 ∈ X.map PlayerScore.player_id := by
    intro e he
    rw [hXid, ← hfstS]
    exact List.mem_map.mpr ⟨e, he, rfl⟩
  have hs0getD : (s0 :: s1 :: rest).getD 0 (0, 0) = s0 := rfl
  have hs1getD : (s0 :: s1 :: rest).getD 1 (0, 0) = s1 := rfl
  have hscoreslen : 1 < (terrainScores pss t).length := by
    simp only [terrainScores, List.length_map]
    omega
  refine ⟨?_, ?_, ?_, ?_, ?_⟩
  · -- top score zero: nothing assigned anywhere
    intro h0 pid
    have happ : applyTerrain pss.length X t = X := by
      simp only [applyTerrain, hXs, hsorted, hs0getD, hs1getD]
      rw [if_neg hn2, if_pos h0]
    rw [bonusOf, hred pid, happ, hXnone pid]
    rfl
  · -- unique leader
    intro h0 hcnt1
    have htf : (s0 :: s1 :: rest).filter
        (fun s => decide (s.2 = s0.2)) = [s0] := by
      have h1 : (s0 :: s1 :: rest).countP (fun s => decide (s.2 = s0.2))
          = 1 := by rw [hcountP]; exact hcnt1
      rw [List.countP_cons, List.countP_cons] at h1
      have hzero : rest.countP (fun s => decide (s.2 = s0.2)) = 0 ∧
          ¬ s1.2 = s0.2 := by
        by_cases hh : s1.2 = s0.2
        · rw [hh] at h1
          simp at h1
        · refine ⟨?_, hh⟩
          simp [hh] at h1
          rw [List.countP_eq_zero]
          intro a ha
          simpa using h1 a.1 a.2 (by simpa using ha)
      rw [List.filter_cons_of_pos (by simp),
        List.filter_cons_of_neg (by simpa using hzero.2),
        List.filter_eq_nil_iff.mpr ?_]
      intro a ha
      have := List.countP_eq_zero.mp hzero.1 a ha
      simpa using this
    have hs1lt : s1.2 < s0.2 := by
      have hle := sortDesc_head_max _ s0 (s1 :: rest) hsorted s1 hs1mem
      by_cases hh : s1.2 = s0.2
      · exfalso
        have h1 : (s0 :: s1 :: rest).countP (fun s => decide (s.2 = s0.2))
            = 1 := by rw [hcountP]; exact hcnt1
        rw [List.countP_cons, List.countP_cons] at h1
        simp [hh] at h1
      · omega
    have hs01 : s0.1 ≠ s1.1 := by
      intro hh
      have := fst_unique hSnd s0 hs0mem s1 hs1mem hh
      rw [this] at hs1lt
      omega
    -- the common reduced form of this branch
    have happ : applyTerrain pss.length X t =
        if 0 < s1.2 then
          (if ((s0 :: s1 :: rest).filter
              (fun s => decide (s.2 = s1.2))).length = 1 then
            add_bonus (add_bonus X s0.1 t 3) s1.1 t 1
          else add_bonus X s0.1 t 3)
        else add_bonus X s0.1 t 3 := by
      have hts : ((s0 :: s1 :: rest).filter
          (fun s => decide (s.2 = s1.2))).getD 0 (0, 0) = s1 := by
        rw [List.filter_cons_of_neg (by simp; omega),
          List.filter_cons_of_pos (by simp)]
        rfl
      simp only [applyTerrain, hXs, hsorted, hs0getD, hs1getD]
      rw [if_neg hn2, if_neg h0, htf]
      simp only [List.length_cons, List.length_nil, List.getD_cons_zero,
        if_true]
      rw [if_pos hscoreslen, hts]
    refine ⟨?_, ?_, ?_, ?_⟩
    · -- leader gets 3
      have h3 : lookupBonus (add_bonus X s0.1 t 3) s0.1 t = some 3 :=
        lookupBonus_add_bonus_self X s0.1 t 3 (hmemX s0 hs0mem)
      rw [bonusOf, hred s0.1, happ]
      split_ifs with h1 h2
      · rw [lookupBonus_add_bonus_ne_pid _ _ _ _ _ _ hs01, h3]; rfl
      · rw [h3]; rfl
      · rw [h3]; rfl
    · -- unique positive runner-up gets 1
      intro hpos hcnt1'
      have hlen1 : ((s0 :: s1 :: rest).filter
          (fun s => decide (s.2 = s1.2))).length = 1 := by
        rw [← List.countP_eq_length_filter, hcountP]
        exact hcnt1'
      rw [bonusOf, hred s1.1, happ, if_pos hpos, if_pos hlen1]
      rw [lookupBonus_add_bonus_self _ s1.1 t 1 ?_]
      · rfl
      · rw [add_bonus_map_pid]
        exact hmemX s1 hs1mem
    · -- everyone else gets nothing
      intro pid hpid0 hpid1
      rw [bonusOf, hred pid, happ]
      split_ifs with h1 h2
      · rw [lookupBonus_add_bonus_ne_pid _ _ _ _ _ _ hpid1,
          lookupBonus_add_bonus_ne_pid _ _ _ _ _ _ hpid0, hXnone pid]
        rfl
      · rw [lookupBonus_add_bonus_ne_pid _ _ _ _ _ _ hpid0, hXnone pid]
        rfl
      · rw [lookupBonus_add_bonus_ne_pid _ _ _ _ _ _ hpid0, hXnone pid]
        rfl
    · -- no (or tied) runner-up: only the leader is paid
      intro hsecond pid hpid0
      rw [bonusOf, hred pid, happ]
      rcases hsecond with hneg | htie
      · rw [if_neg (by omega)]
        rw [lookupBonus_add_bonus_ne_pid _ _ _ _ _ _ hpid0, hXnone pid]
        rfl
      · have hlenne : ¬ ((s0 :: s1 :: rest).filter
            (fun s => decide (s.2 = s1.2))).length = 1 := by
          rw [← List.countP_eq_length_filter, hcountP]
          omega
        by_cases h1 : 0 < s1.2
        · rw [if_pos h1, if_neg hlenne]
          rw [lookupBonus_add_bonus_ne_pid _ _ _ _ _ _ hpid0, hXnone pid]
          rfl
        · rw [if_neg h1]
          rw [lookupBonus_add_bonus_ne_pid _ _ _ _ _ _ hpid0, hXnone pid]
          rfl
  · -- two-way tie for first
    intro h0 hcnt2
    intro e he he2
    have htflen : ((s0 :: s1 :: rest).filter
        (fun s => decide (s.2 = s0.2))).length = 2 := by
      rw [← List.countP_eq_length_filter, hcountP]
      exact hcnt2
    have happ : applyTerrain pss.length X t =
        ((s0 :: s1 :: rest).filter (fun s => decide (s.2 = s0.2))).foldl
          (fun acc w => add_bonus acc w.1 t 2) X := by
      simp only [applyTerrain, hXs, hsorted, hs0getD, hs1getD]
      rw [if_neg hn2, if_neg h0, if_neg (by omega), if_pos htflen]
    rw [bonusOf, hred e.1, happ]
    rw [lookupBonus_foldl_add_bonus t 2 _ X e.1 ?_]
    · rw [if_pos ?_]
      · rfl
      · refine List.mem_map.mpr ⟨e, ?_, rfl⟩
        refine List.mem_filter.mpr ⟨hperm.mem_iff.mpr he, by simpa using he2⟩
    · intro w hw
      exact hmemX w (hperm.subset (List.mem_filter.mp hw).1)
  · -- three-or-more-way tie for first
    intro h0 hcnt3
    intro e he he2
    have htflen : ((s0 :: s1 :: rest).filter
        (fun s => decide (s.2 = s0.2))).length =
        (terrainScores pss t).countP (fun s => decide (s.2 = s0.2)) := by
      rw [← List.countP_eq_length_filter, hcountP]
    have happ : applyTerrain pss.length X t =
        ((s0 :: s1 :: rest).filter (fun s => decide (s.2 = s0.2))).foldl
          (fun acc w => add_bonus acc w.1 t 1) X := by
      simp only [applyTerrain, hXs, hsorted, hs0getD, hs1getD]
      rw [if_neg hn2, if_neg h0, if_neg (by omega), if_neg (by omega)]
    rw [bonusOf, hred e.1, happ]
    rw [lookupBonus_foldl_add_bonus t 1 _ X e.1 ?_]
    · rw [if_pos ?_]
      · rfl
      · refine List.mem_map.mpr ⟨e, ?_, rfl⟩
        refine List.mem_filter.mpr ⟨hperm.mem_iff.mpr he, by simpa using he2⟩
    · intro w hw
      exact hmemX w (hperm.subset (List.mem_filter.mp hw).1)
  · -- any top tie: non-top players get nothing
    intro h0 hcnt2 pid hnotop
    have hnmem : pid ∉ ((s0 :: s1 :: rest).filter
        (fun s => decide (s.2 = s0.2))).map Prod.fst := by
      intro hmem
      rcases List.mem_map.mp hmem with ⟨w, hw, hwpid⟩
      rcases List.mem_filter.mp hw with ⟨hwmem, hwval⟩
      exact hnotop w (hperm.subset hwmem) hwpid (by simpa using hwval)
    have htflen : ((s0 :: s1 :: rest).filter
        (fun s => decide (s.2 = s0.2))).length =
        (terrainScores pss t).countP (fun s => decide (s.2 = s0.2)) := by
      rw [← List.countP_eq_length_filter, hcountP]
    by_cases hc2 : (terrainScores pss t).countP
        (fun s => decide (s.2 = s0.2)) = 2
    · have happ : applyTerrain pss.length X t =
          ((s0 :: s1 :: rest).filter (fun s => decide (s.2 = s0.2))).foldl
            (fun acc w => add_bonus acc w.1 t 2) X := by
        simp only [applyTerrain, hXs, hsorted, hs0getD, hs1getD]
        rw [if_neg hn2, if_neg h0, if_neg (by omega), if_pos (by omega)]
      rw [bonusOf, hred pid, happ]
      rw [lookupBonus_foldl_add_bonus t 2 _ X pid ?_]
      · rw [if_neg hnmem, hXnone pid]; rfl
      · intro w hw
        exact hmemX w (hperm.subset (List.mem_filter.mp hw).1)
    · have happ : applyTerrain pss.length X t =
          ((s0 :: s1 :: rest).filter (fun s => decide (s.2 = s0.2))).foldl
            (fun acc w => add_bonus acc w.1 t 1) X := by
        simp only [applyTerrain, hXs, hsorted, hs0getD, hs1getD]
        rw [if_neg hn2, if_neg h0, if_neg (by omega), if_neg (by omega)]
      rw [bonusOf, hred pid, happ]
      rw [lookupBonus_foldl_add_bonus t 1 _ X pid ?_]
      · rw [if_neg hnmem, hXnone pid]; rfl
      · intro w hw
        exact hmemX w (hperm.subset (List.mem_filter.mp hw).1)

/-- Evaluation of the whole resolver for one terrain in the 2-player
regime: the strictly-higher player gets 2, a positive tie pays 1 each,
and a tie at or below zero pays nothing. -/
theorem two_player_eval (a b : PlayerScore) (t : String)
    (ht : t ∈ terrainTypes) (hab : a.player_id ≠ b.player_id)
    (hempty : ∀ q ∈ [a, b], q.majority_bonuses = []) :
    (dictGetD b.habitat_scores t 0 < dictGetD a.habitat_scores t 0 →
      bonusOf (calculate_majority_bonuses [a, b]) a.player_id t = 2 ∧
      bonusOf (calculate_majority_bonuses [a, b]) b.player_id t = 0) ∧
    (dictGetD a.habitat_scores t 0 < dictGetD b.habitat_scores t 0 →
      bonusOf (calculate_majority_bonuses [a, b]) a.player_id t = 0 ∧
      bonusOf (calculate_majority_bonuses [a, b]) b.player_id t = 2) ∧
    (dictGetD a.habitat_scores t 0 = dictGetD b.habitat_scores t 0 →
      0 < dictGetD a.habitat_scores t 0 →
      bonusOf (calculate_majority_bonuses [a, b]) a.player_id t = 1 ∧
      bonusOf (calculate_majority_bonuses [a, b]) b.player_id t = 1) ∧
    (dictGetD a.habitat_scores t 0 = dictGetD b.habitat_scores t 0 →
      dictGetD a.habitat_scores t 0 ≤ 0 →
      bonusOf (calculate_majority_bonuses [a, b]) a.player_id t = 0 ∧
      bonusOf (calculate_majority_bonuses [a, b]) b.player_id t = 0) := by
  obtain ⟨X, hXs, hXid, hXlook, hred⟩ :=
    lookupBonus_calc_reduction [a, b] t ht
  have hXnone : ∀ pid : Int, lookupBonus X pid t = none := fun pid =>
    (hXlook pid).trans (lookupBonus_of_empty [a, b] pid t hempty)
  obtain ⟨va, hva⟩ : ∃ v, dictGetD a.habitat_scores t 0 = v := ⟨_, rfl⟩
  obtain ⟨vb, hvb⟩ : ∃ v, dictGetD b.habitat_scores t 0 = v := ⟨_, rfl⟩
  rw [hva, hvb]
  have hS : terrainScores [a, b] t =
      [(a.player_id, va), (b.player_id, vb)] := by
    simp [terrainScores, hva, hvb]
  have hamem : a.player_id ∈ X.map PlayerScore.player_id := by
    rw [hXid]; simp
  have hbmem : b.player_id ∈ X.map PlayerScore.player_id := by
    rw [hXid]; simp
  have hg0 : ([(a.player_id, va), (b.player_id, vb)] :
      List (Int × Int)).getD 0 (0, 0) = (a.player_id, va) := rfl
  have hg1 : ([(a.player_id, va), (b.player_id, vb)] :
      List (Int × Int)).getD 1 (0, 0) = (b.player_id, vb) := rfl
  have hg0' : ([(b.player_id, vb), (a.player_id, va)] :
      List (Int × Int)).getD 0 (0, 0) = (b.player_id, vb) := rfl
  have hg1' : ([(b.player_id, vb), (a.player_id, va)] :
      List (Int × Int)).getD 1 (0, 0) = (a.player_id, va) := rfl
  have hlen2 : ([a, b] : List PlayerScore).length = 2 := rfl
  refine ⟨?_, ?_, ?_, ?_⟩
  · intro hlt
    have hsorted : sortDescBy scoreLt (terrainScores [a, b] t) =
        [(a.player_id, va), (b.player_id, vb)] := by
      rw [hS]
      simp only [sortDescBy, insertDescBy]
      rw [if_neg (by simp only [scoreLt, decide_eq_true_eq]; omega)]
    have happ : applyTerrain ([a, b] : List PlayerScore).length X t =
        add_bonus X a.player_id t 2 := by
      simp only [applyTerrain, hXs, hsorted, hg0, hg1, hlen2, if_pos rfl, if_true]
      rw [if_pos hlt]
    constructor
    · rw [bonusOf, hred a.player_id, happ,
        lookupBonus_add_bonus_self X a.player_id t 2 hamem]
      rfl
    · rw [bonusOf, hred b.player_id, happ,
        lookupBonus_add_bonus_ne_pid _ _ _ _ _ _ (fun h => hab h.symm),
        hXnone b.player_id]
      rfl
  · intro hlt
    have hsorted : sortDescBy scoreLt (terrainScores [a, b] t) =
        [(b.player_id, vb), (a.player_id, va)] := by
      rw [hS]
      simp only [sortDescBy, insertDescBy]
      rw [if_pos (by simp only [scoreLt, decide_eq_true_eq]; omega)]
    have happ : applyTerrain ([a, b] : List PlayerScore).length X t =
        add_bonus X b.player_id t 2 := by
      simp only [applyTerrain, hXs, hsorted, hg0', hg1', hlen2, if_pos rfl, if_true]
      rw [if_pos hlt]
    constructor
    · rw [bonusOf, hred a.player_id, happ,
        lookupBonus_add_bonus_ne_pid _ _ _ _ _ _ hab,
        hXnone a.player_id]
      rfl
    · rw [bonusOf, hred b.player_id, happ,
        lookupBonus_add_bonus_self X b.player_id t 2 hbmem]
      rfl
  · intro heq hpos
    have hsorted : sortDescBy scoreLt (terrainScores [a, b] t) =
        [(a.player_id, va), (b.player_id, vb)] := by
      rw [hS]
      simp only [sortDescBy, insertDescBy]
      rw [if_neg (by simp only [scoreLt, decide_eq_true_eq]; omega)]
    have happ : applyTerrain ([a, b] : List PlayerScore).length X t =
        add_bonus (add_bonus X a.player_id t 1) b.player_id t 1 := by
      simp only [applyTerrain, hXs, hsorted, hg0, hg1, hlen2, if_pos rfl, if_true]
      rw [if_neg (by omega : ¬ vb < va), if_pos ⟨heq, hpos⟩]
    constructor
    · rw [bonusOf, hred a.player_id, happ,
        lookupBonus_add_bonus_ne_pid _ _ _ _ _ _ hab,
        lookupBonus_add_bonus_self X a.player_id t 1 hamem]
      rfl
    · rw [bonusOf, hred b.player_id, happ,
        lookupBonus_add_bonus_self _ b.player_id t 1 ?_]
      · rfl
      · rw [add_bonus_map_pid]; exact hbmem
  · intro heq hle
    have hsorted : sortDescBy scoreLt (terrainScores [a, b] t) =
        [(a.player_id, va), (b.player_id, vb)] := by
      rw [hS]
      simp only [sortDescBy, insertDescBy]
      rw [if_neg (by simp only [scoreLt, decide_eq_true_eq]; omega)]
    have happ : applyTerrain ([a, b] : List PlayerScore).length X t = X := by
      simp only [applyTerrain, hXs, hsorted, hg0, hg1, hlen2, if_pos rfl, if_true]
      rw [if_neg (by omega : ¬ vb < va),
        if_neg (by omega : ¬ (va = vb ∧ 0 < va))]
    constructor
    · rw [bonusOf, hred a.player_id, happ, hXnone a.player_id]; rfl
    · rw [bonusOf, hred b.player_id, happ, hXnone b.player_id]; rfl

theorem countP_snd_eq_count (S : List (Int × Int)) (c : Int) :
    S.countP (fun s => decide (s.2 = c)) = (S.map Prod.snd).count c := by
  rw [List.count, List.countP_map]
  apply List.countP_congr
  intro a _
  simp [beq_iff_eq]

/-- **C5.** `_calculate_majority_bonuses` assigns each terrain's
majority bonuses by the player-count rule.  With 2 players: the
strictly-higher habitat score gets 2; a tie with positive scores gives
each 1; a tie at 0 gives nothing (and the strictly-lower player gets
nothing).  With 3-4 players: a top score of 0 gives nothing; a unique
leader gets 3; a unique second-place player with positive score gets 1,
while a second-place tie, a non-positive second score, or not being the
second-place value gives 0; a two-way tie for top gives each 2; a
three-or-more-way tie gives each 1; and after any top tie every
non-top player gets 0. -/
theorem majority_bonus_rules (pss : List PlayerScore) (t : String)
    (ht : t ∈ terrainTypes)
    (hnd : (pss.map PlayerScore.player_id).Pairwise (· ≠ ·))
    (hempty : ∀ q ∈ pss, q.majority_bonuses = [])
    (p : PlayerScore) (hp : p ∈ pss) :
    (pss.length = 2 →
      ((∀ q ∈ pss, q.player_id ≠ p.player_id →
          dictGetD q.habitat_scores t 0 < dictGetD p.habitat_scores t 0) →
        bonusOf (calculate_majority_bonuses pss) p.player_id t = 2) ∧
      ((∃ q ∈ pss, q.player_id ≠ p.player_id ∧
          dictGetD q.habitat_scores t 0 = dictGetD p.habitat_scores t 0) →
        0 < dictGetD p.habitat_scores t 0 →
        bonusOf (calculate_majority_bonuses pss) p.player_id t = 1) ∧
      ((∃ q ∈ pss, q.player_id ≠ p.player_id ∧
          dictGetD p.habitat_scores t 0 < dictGetD q.habitat_scores t 0) →
        bonusOf (calculate_majority_bonuses pss) p.player_id t = 0) ∧
      ((∃ q ∈ pss, q.player_id ≠ p.player_id ∧
          dictGetD q.habitat_scores t 0 = dictGetD p.habitat_scores t 0) →
        dictGetD p.habitat_scores t 0 = 0 →
        bonusOf (calculate_majority_bonuses pss) p.player_id t = 0)) ∧
    ((pss.length = 3 ∨ pss.length = 4) →
      ∀ top : Int, top ∈ (terrainScores pss t).map Prod.snd →
      (∀ w ∈ (terrainScores pss t).map Prod.snd, w ≤ top) →
      ((top = 0 →
        bonusOf (calculate_majority_bonuses pss) p.player_id t = 0) ∧
      (dictGetD p.habitat_scores t 0 = top → top ≠ 0 →
        ((terrainScores pss t).map Prod.snd).count top = 1 →
        bonusOf (calculate_majority_bonuses pss) p.player_id t = 3) ∧
      (dictGetD p.habitat_scores t 0 < top → top ≠ 0 →
        ((terrainScores pss t).map Prod.snd).count top = 1 →
        (∀ u ∈ (terrainScores pss t).map Prod.snd, u < top →
          u ≤ dictGetD p.habitat_scores t 0) →
        0 < dictGetD p.habitat_scores t 0 →
        ((terrainScores pss t).map Prod.snd).count
          (dictGetD p.habitat_scores t 0) = 1 →
        bonusOf (calculate_majority_bonuses pss) p.player_id t = 1) ∧
      (dictGetD p.habitat_scores t 0 < top → top ≠ 0 →
        ((terrainScores pss t).map Prod.snd).count top = 1 →
        ((∃ u ∈ (terrainScores pss t).map Prod.snd, u < top ∧
            dictGetD p.habitat_scores t 0 < u) ∨
          dictGetD p.habitat_scores t 0 ≤ 0 ∨
          2 ≤ ((terrainScores pss t).map Prod.snd).count
            (dictGetD p.habitat_scores t 0)) →
        bonusOf (calculate_majority_bonuses pss) p.player_id t = 0) ∧
      (dictGetD p.habitat_scores t 0 = top → top ≠ 0 →
        ((terrainScores pss t).map Prod.snd).count top = 2 →
        bonusOf (calculate_majority_bonuses pss) p.player_id t = 2) ∧
      (dictGetD p.habitat_scores t 0 = top → top ≠ 0 →
        3 ≤ ((terrainScores pss t).map Prod.snd).count top →
        bonusOf (calculate_majority_bonuses pss) p.player_id t = 1) ∧
      (dictGetD p.habitat_scores t 0 < top →
        2 ≤ ((terrainScores pss t).map Prod.snd).count top →
        bonusOf (calculate_majority_bonuses pss) p.player_id t = 0))) := by
  have hpE : (p.player_id, dictGetD p.habitat_scores t 0) ∈
      terrainScores pss t := List.mem_map.mpr ⟨p, hp, rfl⟩
  have hfstS : (terrainScores pss t).map Prod.fst =
      pss.map PlayerScore.player_id := by
    simp [terrainScores, List.map_map]
  have hSnd : ((terrainScores pss t).map Prod.fst).Pairwise (· ≠ ·) := by
    rw [hfstS]; exact hnd
  constructor
  · -- 2-player regime
    intro hlen
    match pss, hnd, hempty, hp, hpE, hSnd, hlen with
    | [a, b], hnd, hempty, hp, hpE, hSnd, hlen =>
    have hab : a.player_id ≠ b.player_id := by
      simpa using (List.pairwise_cons.mp hnd).1 b.player_id (by simp)
    have heval := two_player_eval a b t ht hab hempty
    rcases List.mem_cons.mp hp with rfl | hp'
    · refine ⟨?_, ?_, ?_, ?_⟩
      · intro hstrict
        exact (heval.1 (hstrict b (by simp) (fun h => hab h.symm))).1
      · rintro ⟨q, hq, hqid, hqeq⟩ hpos
        rcases List.mem_cons.mp hq with rfl | hq'
        · exact absurd rfl hqid
        rcases List.mem_cons.mp hq' with rfl | hq''
        · exact (heval.2.2.1 hqeq.symm hpos).1
        · cases hq''
      · rintro ⟨q, hq, hqid, hqlt⟩
        rcases List.mem_cons.mp hq with rfl | hq'
        · exact absurd rfl hqid
        rcases List.mem_cons.mp hq' with rfl | hq''
        · exact (heval.2.1 hqlt).1
        · cases hq''
      · rintro ⟨q, hq, hqid, hqeq⟩ hzero
        rcases List.mem_cons.mp hq with rfl | hq'
        · exact absurd rfl hqid
        rcases List.mem_cons.mp hq' with rfl | hq''
        · exact (heval.2.2.2 hqeq.symm (by omega)).1
        · cases hq''
    rcases List.mem_cons.mp hp' with rfl | hp''
    · refine ⟨?_, ?_, ?_, ?_⟩
      · intro hstrict
        exact (heval.2.1 (hstrict a (by simp) hab)).2
      · rintro ⟨q, hq, hqid, hqeq⟩ hpos
        rcases List.mem_cons.mp hq with rfl | hq'
        · exact (heval.2.2.1 hqeq (by omega)).2
        rcases List.mem_cons.mp hq' with rfl | hq''
        · exact absurd rfl hqid
        · cases hq''
      · rintro ⟨q, hq, hqid, hqlt⟩
        rcases List.mem_cons.mp hq with rfl | hq'
        · exact (heval.1 hqlt).2
        rcases List.mem_cons.mp hq' with rfl | hq''
        · exact absurd rfl hqid
        · cases hq''
      · rintro ⟨q, hq, hqid, hqeq⟩ hzero
        rcases List.mem_cons.mp hq with rfl | hq'
        · exact (heval.2.2.2 hqeq (by omega)).2
        rcases List.mem_cons.mp hq' with rfl | hq''
        · exact absurd rfl hqid
        · cases hq''
    · cases hp''
  · -- 3-4-player regime
    intro hlen34 top htopmem htopmax
    have hn2 : pss.length ≠ 2 := by omega
    have hlen3 : 3 ≤ pss.length := by omega
    have hslen : (sortDescBy scoreLt (terrainScores pss t)).length =
        pss.length := by
      rw [sortDescBy_length]
      simp [terrainScores]
    rcases hsorted : sortDescBy scoreLt (terrainScores pss t) with
      _ | ⟨s0, _ | ⟨s1, rest⟩⟩
    · rw [hsorted] at hslen; simp at hslen; omega
    · rw [hsorted] at hslen; simp at hslen; omega
    have heval := multi_player_eval pss t ht hnd hempty hn2 hlen3
      s0 s1 rest hsorted
    have hperm := sortDescBy_perm scoreLt (terrainScores pss t)
    rw [hsorted] at hperm
    have hs0mem : s0 ∈ terrainScores pss t := hperm.subset (by simp)
    have hs1mem : s1 ∈ terrainScores pss t := hperm.subset (by simp)
    have htop0 : s0.2 = top := by
      have h1 : s0.2 ≤ top :=
        htopmax s0.2 (List.mem_map.mpr ⟨s0, hs0mem, rfl⟩)
      rcases List.mem_map.mp htopmem with ⟨e, he, hee⟩
      have h2 : top ≤ s0.2 := by
        rw [← hee]
        exact sortDesc_head_max _ s0 (s1 :: rest) hsorted e he
      omega
    have hcnteq : ∀ c : Int,
        (terrainScores pss t).countP (fun s => decide (s.2 = c)) =
        ((terrainScores pss t).map Prod.snd).count c :=
      countP_snd_eq_count _
    refine ⟨?_, ?_, ?_, ?_, ?_, ?_, ?_⟩
    · intro h0
      exact heval.1 (by omega) p.player_id
    · intro hv h0 hcnt
      have hc1 : (terrainScores pss t).countP
          (fun s => decide (s.2 = s0.2)) = 1 := by
        rw [hcnteq, htop0]; exact hcnt
      have hs0p : s0 = (p.player_id, dictGetD p.habitat_scores t 0) := by
        refine countP_one_unique _ _ hc1 s0 hs0mem _ hpE ?_ ?_
        · simp
        · simp [htop0, hv]
      have := (heval.2.1 (by omega) hc1).1
      rw [hs0p] at this
      exact this
    · intro hv h0 hcnt hsecond hpos hcntv
      have hc1 : (terrainScores pss t).countP
          (fun s => decide (s.2 = s0.2)) = 1 := by
        rw [hcnteq, htop0]; exact hcnt
      have hs1lt : s1.2 < top := by
        have hle : s1.2 ≤ top := htopmax s1.2
          (List.mem_map.mpr ⟨s1, hs1mem, rfl⟩)
        by_cases hh : s1.2 = top
        · exfalso
          have h1 : (s0 :: s1 :: rest).countP
              (fun s => decide (s.2 = s0.2)) = 1 :=
            (hperm.countP_eq _).trans hc1
          rw [List.countP_cons, List.countP_cons] at h1
          rw [htop0] at h1
          simp [hh] at h1
        · omega
      have hs1v : s1.2 = dictGetD p.habitat_scores t 0 := by
        have hle1 : dictGetD p.habitat_scores t 0 ≤ s1.2 := by
          rcases List.mem_cons.mp (hperm.mem_iff.mpr hpE) with heq | hmem
          · exfalso
            have : dictGetD p.habitat_scores t 0 = s0.2 := by
              rw [← heq]
            omega
          · exact sortDesc_second_max _ s0 s1 rest hsorted _ hmem
        have hle2 : s1.2 ≤ dictGetD p.habitat_scores t 0 :=
          hsecond s1.2 (List.mem_map.mpr ⟨s1, hs1mem, rfl⟩) hs1lt
        omega
      have hcv : (terrainScores pss t).countP
          (fun s => decide (s.2 = s1.2)) = 1 := by
        rw [hcnteq, hs1v]; exact hcntv
      have hs1p : s1 = (p.player_id, dictGetD p.habitat_scores t 0) := by
        refine countP_one_unique _ _ hcv s1 hs1mem _ hpE ?_ ?_
        · simp
        · simp [hs1v]
      have := (heval.2.1 (by omega) hc1).2.1 (by omega) hcv
      rw [hs1p] at this
      exact this
    · intro hv h0 hcnt hbad
      have hc1 : (terrainScores pss t).countP
          (fun s => decide (s.2 = s0.2)) = 1 := by
        rw [hcnteq, htop0]; exact hcnt
      have hpid0 : p.player_id ≠ s0.1 := by
        intro hh
        have : (p.player_id, dictGetD p.habitat_scores t 0) = s0 :=
          fst_unique hSnd _ hpE s0 hs0mem hh
        have : dictGetD p.habitat_scores t 0 = s0.2 := by
          rw [← this]
        omega
      have hs1lt : s1.2 < top := by
        have hle : s1.2 ≤ top := htopmax s1.2
          (List.mem_map.mpr ⟨s1, hs1mem, rfl⟩)
        by_cases hh : s1.2 = top
        · exfalso
          have h1 : (s0 :: s1 :: rest).countP
              (fun s => decide (s.2 = s0.2)) = 1 :=
            (hperm.countP_eq _).trans hc1
          rw [List.countP_cons, List.countP_cons] at h1
          rw [htop0] at h1
          simp [hh] at h1
        · omega
      have hD := (heval.2.1 (by rw [htop0]; exact h0) hc1).2.2.1
      have hD' := (heval.2.1 (by rw [htop0]; exact h0) hc1).2.2.2
      rcases hbad with ⟨u, hu, hult, hvu⟩ | hvneg | hcnt2
      · -- p is not even the second value
        have hpid1 : p.player_id ≠ s1.1 := by
          intro hh
          have hps1 : (p.player_id, dictGetD p.habitat_scores t 0) = s1 :=
            fst_unique hSnd _ hpE s1 hs1mem hh
          have hv1 : dictGetD p.habitat_scores t 0 = s1.2 := by
            rw [← hps1]
          rcases List.mem_map.mp hu with ⟨e, he, hee⟩
          have : u ≤ s1.2 := by
            rcases List.mem_cons.mp (hperm.mem_iff.mpr he) with heq | hmem
            · exfalso
              have : u = s0.2 := by rw [← hee, ← heq]
              omega
            · rw [← hee]
              exact sortDesc_second_max _ s0 s1 rest hsorted e hmem
          omega
        exact hD p.player_id hpid0 hpid1
      · by_cases hpid1 : p.player_id = s1.1
        · have hps1 : (p.player_id, dictGetD p.habitat_scores t 0) = s1 :=
            fst_unique hSnd _ hpE s1 hs1mem hpid1
          have hv1 : dictGetD p.habitat_scores t 0 = s1.2 := by
            rw [← hps1]
          exact hD' (Or.inl (by omega)) p.player_id hpid0
        · exact hD p.player_id hpid0 hpid1
      · by_cases hpid1 : p.player_id = s1.1
        · have hps1 : (p.player_id, dictGetD p.habitat_scores t 0) = s1 :=
            fst_unique hSnd _ hpE s1 hs1mem hpid1
          have hv1 : dictGetD p.habitat_scores t 0 = s1.2 := by
            rw [← hps1]
          refine hD' (Or.inr ?_) p.player_id hpid0
          rw [hcnteq, ← hv1]
          exact hcnt2
        · exact hD p.player_id hpid0 hpid1
    · intro hv h0 hcnt
      have hc2 : (terrainScores pss t).countP
          (fun s => decide (s.2 = s0.2)) = 2 := by
        rw [hcnteq, htop0]; exact hcnt
      have := heval.2.2.1 (by omega) hc2 _ hpE (by simp [htop0, hv])
      exact this
    · intro hv h0 hcnt
      have hc3 : 3 ≤ (terrainScores pss t).countP
          (fun s => decide (s.2 = s0.2)) := by
        rw [hcnteq, htop0]; exact hcnt
      have := heval.2.2.2.1 (by omega) hc3 _ hpE (by simp [htop0, hv])
      exact this
    · intro hv hcnt
      by_cases h0 : top = 0
      · exact heval.1 (by rw [htop0]; exact h0) p.player_id
      · have hc2 : 2 ≤ (terrainScores pss t).countP
            (fun s => decide (s.2 = s0.2)) := by
          rw [hcnteq, htop0]; exact hcnt
        refine heval.2.2.2.2 (by rw [htop0]; exact h0) hc2 p.player_id ?_
        intro e he hepid
        have heq : e = (p.player_id, dictGetD p.habitat_scores t 0) :=
          fst_unique hSnd e he _ hpE hepid
        have he2 : e.2 = dictGetD p.habitat_scores t 0 := by rw [heq]
        omega

/-- Witness for `majority_bonus_rules`: a 2-player strict majority (5
vs 3 gives 2 points) and a 3-player unique leader (8 over 5 over 1
gives 3 points). -/
theorem majority_bonus_rules_witness :
    bonusOf (calculate_majority_bonuses
      [⟨1, [], [("forest", 5)], 5, 0, [], 0⟩,
       ⟨2, [], [("forest", 3)], 3, 0, [], 0⟩]) 1 "forest" = 2 ∧
    bonusOf (calculate_majority_bonuses
      [⟨1, [], [("forest", 8)], 8, 0, [], 0⟩,
       ⟨2, [], [("forest", 5)], 5, 0, [], 0⟩,
       ⟨3, [], [("forest", 1)], 1, 0, [], 0⟩]) 1 "forest" = 3 := by
  constructor
  · have h := (majority_bonus_rules
      [⟨1, [], [("forest", 5)], 5, 0, [], 0⟩,
       ⟨2, [], [("forest", 3)], 3, 0, [], 0⟩] "forest" (by decide)
      (by decide) (by decide) ⟨1, [], [("forest", 5)], 5, 0, [], 0⟩
      (by decide)).1 (by decide)
    exact h.1 (by decide)
  · have h := (majority_bonus_rules
      [⟨1, [], [("forest", 8)], 8, 0, [], 0⟩,
       ⟨2, [], [("forest", 5)], 5, 0, [], 0⟩,
       ⟨3, [], [("forest", 1)], 1, 0, [], 0⟩] "forest" (by decide)
      (by decide) (by decide) ⟨1, [], [("forest", 8)], 8, 0, [], 0⟩
      (by decide)).2 (by decide) 8 (by decide) (by decide)
    exact h.2.1 (by decide) (by decide) (by decide)

/-! ## Claim C7: idempotence of the resolver

The resolver is a sequence of `_add_bonus` writes (terrain, player,
value) followed by a total recomputation; re-running it issues the same
writes, each of which overwrites the entry it wrote the first time. -/

/-- One `_add_bonus` write: (terrain, player id, bonus value). -/
def applyOp (pss : List PlayerScore) (o : String × Int × Int) :
    List PlayerScore :=
  add_bonus pss o.2.1 o.1 o.2.2

/-- A sequence of `_add_bonus` writes. -/
def applySeq (L : List (String × Int × Int)) (pss : List PlayerScore) :
    List PlayerScore :=
  L.foldl applyOp pss

theorem add_bonus_not_mem (pss : List PlayerScore) (pid : Int)
    (t : String) (v : Int) (h : pid ∉ pss.map PlayerScore.player_id) :
    add_bonus pss pid t v = pss := by
  induction pss with
  | nil => rfl
  | cons ps rest ih =>
    have h1 : ¬ ps.player_id = pid := fun hh => h (by simp [hh])
    simp [add_bonus, h1, ih (fun hh => h (by simp [hh]))]

theorem add_bonus_lookup_fixed (pss : List PlayerScore) (pid : Int)
    (t : String) (v : Int) (h : lookupBonus pss pid t = some v) :
    add_bonus pss pid t v = pss := by
  induction pss with
  | nil => rfl
  | cons ps rest ih =>
    by_cases hps : ps.player_id = pid
    · simp only [lookupBonus, if_pos hps] at h
      simp only [add_bonus, if_pos hps]
      rw [dictSet_of_lookup_eq _ _ _ h]
    · simp only [lookupBonus, if_neg hps] at h
      simp [add_bonus, hps, ih h]

theorem add_bonus_absorb (pss : List PlayerScore) (pid : Int)
    (t : String) (v w : Int) :
    add_bonus (add_bonus pss pid t v) pid t w = add_bonus pss pid t w := by
  induction pss with
  | nil => simp [add_bonus]
  | cons ps rest ih =>
    by_cases hps : ps.player_id = pid
    · simp [add_bonus, hps, dictSet_dictSet_same]
    · simp [add_bonus, hps, ih]

theorem add_bonus_comm_ne_pid (pss : List PlayerScore) (pid pid' : Int)
    (t t' : String) (v v' : Int) (h : pid ≠ pid') :
    add_bonus (add_bonus pss pid t v) pid' t' v' =
      add_bonus (add_bonus pss pid' t' v') pid t v := by
  induction pss with
  | nil => simp [add_bonus]
  | cons ps rest ih =>
    by_cases hps : ps.player_id = pid
    · have h2 : ¬ ps.player_id = pid' := by rw [hps]; exact h
      simp [add_bonus, hps, h2, h]
    · by_cases hps' : ps.player_id = pid'
      · simp [add_bonus, hps, hps',
          (show ¬ pid' = pid from fun hh => h hh.symm)]
      · simp [add_bonus, hps, hps', ih]

/-- Two writes to different keys of one dict commute as soon as the
first key is already present (so neither order appends it at the end
after the other's append). -/
theorem dictSet_comm_of_present (d : List (String × Int)) (t t' : String)
    (v v' : Int) (hne : t' ≠ t) (hpres : (dictLookup d t).isSome) :
    dictSet (dictSet d t v) t' v' = dictSet (dictSet d t' v') t v := by
  induction d with
  | nil => simp [dictLookup] at hpres
  | cons p rest ih =>
    by_cases hp : p.1 = t
    · have hp' : ¬ p.1 = t' := by rw [hp]; exact fun hh => hne hh.symm
      simp [dictSet, hp, hp',
        (show ¬ t = t' from fun hh => hne hh.symm)]
    · by_cases hp' : p.1 = t'
      · simp [dictSet, hp, hp', hne]
      · simp only [dictLookup, if_neg hp] at hpres
        simp [dictSet, hp, hp', ih hpres]

theorem add_bonus_comm_ne_key_present (pss : List PlayerScore) (pid : Int)
    (t t' : String) (v v' : Int) (hne : t' ≠ t)
    (hpres : (lookupBonus pss pid t).isSome) :
    add_bonus (add_bonus pss pid t v) pid t' v' =
      add_bonus (add_bonus pss pid t' v') pid t v := by
  induction pss with
  | nil => simp [add_bonus]
  | cons ps rest ih =>
    by_cases hps : ps.player_id = pid
    · simp only [lookupBonus, if_pos hps] at hpres
      simp [add_bonus, hps, dictSet_comm_of_present _ _ _ _ _ hne hpres]
    · simp only [lookupBonus, if_neg hps] at hpres
      simp [add_bonus, hps, ih hpres]

theorem applySeq_map_pid (L : List (String × Int × Int)) :
    ∀ (X : List PlayerScore),
      (applySeq L X).map PlayerScore.player_id =
        X.map PlayerScore.player_id := by
  induction L with
  | nil => intro X; rfl
  | cons o M ih =>
    intro X
    simp only [applySeq, List.foldl_cons]
    rw [show (List.foldl applyOp (applyOp X o) M) = applySeq M (applyOp X o)
      from rfl, ih, applyOp, add_bonus_map_pid]

theorem lookupBonus_isSome_applySeq (pid : Int) (t : String)
    (L : List (String × Int × Int)) :
    ∀ (X : List PlayerScore), (lookupBonus X pid t).isSome →
      (lookupBonus (applySeq L X) pid t).isSome := by
  induction L with
  | nil => intro X h; exact h
  | cons o M ih =>
    intro X h
    simp only [applySeq, List.foldl_cons]
    refine ih (applyOp X o) ?_
    by_cases hk : t = o.1
    · by_cases hpid : pid = o.2.1
      · rw [applyOp, hpid, hk]
        by_cases hmem : o.2.1 ∈ X.map PlayerScore.player_id
        · rw [lookupBonus_add_bonus_self _ _ _ _ hmem]; rfl
        · rw [add_bonus_not_mem _ _ _ _ hmem, ← hk, ← hpid]; exact h
      · rw [applyOp, lookupBonus_add_bonus_ne_pid _ _ _ _ _ _ hpid]
        exact h
    · rw [applyOp, lookupBonus_add_bonus_ne_key _ _ _ _ _ _ hk]
      exact h

theorem lookupBonus_applySeq_nowrite (pid : Int) (t : String)
    (L : List (String × Int × Int))
    (hno : ∀ o ∈ L, ¬ (o.1 = t ∧ o.2.1 = pid)) :
    ∀ (X : List PlayerScore),
      lookupBonus (applySeq L X) pid t = lookupBonus X pid t := by
  induction L with
  | nil => intro X; rfl
  | cons o M ih =>
    intro X
    simp only [applySeq, List.foldl_cons]
    rw [show (List.foldl applyOp (applyOp X o) M) = applySeq M (applyOp X o)
      from rfl, ih (fun o' ho' => hno o' (by simp [ho']))]
    by_cases hk : o.1 = t
    · have hpid : ¬ o.2.1 = pid := fun hh => hno o (by simp) ⟨hk, hh⟩
      rw [applyOp, lookupBonus_add_bonus_ne_pid _ _ _ _ _ _
        (fun hh => hpid hh.symm)]
    · rw [applyOp, lookupBonus_add_bonus_ne_key _ _ _ _ _ _
        (fun hh => hk hh.symm)]

/-- Two states that differ at most in the value stored at one player's
entry for one terrain (both being overwrites of a common state whose
entry already exists). -/
def vdRel (pid : Int) (t : String) (Z₁ Z₂ : List PlayerScore) : Prop :=
  Z₁ = Z₂ ∨ ∃ (W : List PlayerScore) (v₁ v₂ : Int),
    (lookupBonus W pid t).isSome ∧
    Z₁ = add_bonus W pid t v₁ ∧ Z₂ = add_bonus W pid t v₂

theorem vdRel_applyOp (pid : Int) (t : String)
    (Z₁ Z₂ : List PlayerScore) (o : String × Int × Int)
    (h : vdRel pid t Z₁ Z₂) : vdRel pid t (applyOp Z₁ o) (applyOp Z₂ o) := by
  rcases h with rfl | ⟨W, v₁, v₂, hpres, rfl, rfl⟩
  · exact Or.inl rfl
  obtain ⟨t', pid', v'⟩ := o
  by_cases hpid : pid' = pid
  · subst hpid
    by_cases hk : t' = t
    · subst hk
      refine Or.inl ?_
      simp only [applyOp, add_bonus_absorb]
    · refine Or.inr ⟨add_bonus W pid' t' v', v₁, v₂, ?_, ?_, ?_⟩
      · rw [lookupBonus_add_bonus_ne_key _ _ _ _ _ _
          (fun hh => hk hh.symm)]
        exact hpres
      · exact (add_bonus_comm_ne_key_present W pid' t t' v₁ v' hk
          hpres).symm ▸ rfl
      · exact (add_bonus_comm_ne_key_present W pid' t t' v₂ v' hk
          hpres).symm ▸ rfl
  · refine Or.inr ⟨add_bonus W pid' t' v', v₁, v₂, ?_, ?_, ?_⟩
    · rw [lookupBonus_add_bonus_ne_pid _ _ _ _ _ _
        (fun hh => hpid hh.symm)]
      exact hpres
    · exact (add_bonus_comm_ne_pid W pid pid' t t' v₁ v'
        (fun hh => hpid hh.symm)).symm ▸ rfl
    · exact (add_bonus_comm_ne_pid W pid pid' t t' v₂ v'
        (fun hh => hpid hh.symm)).symm ▸ rfl

theorem vdRel_collapse (pid : Int) (t : String)
    (Z₁ Z₂ : List PlayerScore) (w : Int) (h : vdRel pid t Z₁ Z₂) :
    applyOp Z₁ (t, pid, w) = applyOp Z₂ (t, pid, w) := by
  rcases h with rfl | ⟨W, v₁, v₂, _, rfl, rfl⟩
  · rfl
  · simp only [applyOp, add_bonus_absorb]

theorem vdRel_applySeq (pid : Int) (t : String) :
    ∀ (M : List (String × Int × Int)) (Z₁ Z₂ : List PlayerScore),
      vdRel pid t Z₁ Z₂ → (∃ o ∈ M, o.1 = t ∧ o.2.1 = pid) →
      applySeq M Z₁ = applySeq M Z₂ := by
  intro M
  induction M with
  | nil => rintro Z₁ Z₂ _ ⟨o, ho, _⟩; cases ho
  | cons o M ih =>
    intro Z₁ Z₂ hvd hcol
    by_cases hco : o.1 = t ∧ o.2.1 = pid
    · have ho : o = (t, pid, o.2.2) := by
        obtain ⟨hk, hp⟩ := hco
        rw [← hk, ← hp]
      have := vdRel_collapse pid t Z₁ Z₂ o.2.2 hvd
      simp only [applySeq, List.foldl_cons]
      rw [ho, this]
    · have hcol' : ∃ o' ∈ M, o'.1 = t ∧ o'.2.1 = pid := by
        rcases hcol with ⟨o', ho', hco'⟩
        rcases List.mem_cons.mp ho' with rfl | ho''
        · exact absurd hco' hco
        · exact ⟨o', ho'', hco'⟩
      simp only [applySeq, List.foldl_cons]
      exact ih (applyOp Z₁ o) (applyOp Z₂ o)
        (vdRel_applyOp pid t Z₁ Z₂ o hvd) hcol'

/-- Re-issuing a sequence of `_add_bonus` writes leaves the state
unchanged: each write overwrites the entry it produced the first
time. -/
theorem applySeq_idem :
    ∀ (L : List (String × Int × Int)) (X : List PlayerScore),
      applySeq L (applySeq L X) = applySeq L X := by
  intro L
  induction L with
  | nil => intro X; rfl
  | cons o M ih =>
    intro X
    obtain ⟨t, pid, v⟩ := o
    show applySeq M (applyOp (applySeq M (applyOp X (t, pid, v)))
      (t, pid, v)) = applySeq M (applyOp X (t, pid, v))
    by_cases hmem : pid ∈ X.map PlayerScore.player_id
    · have hpresX' : (lookupBonus (applyOp X (t, pid, v)) pid t).isSome := by
        rw [applyOp, lookupBonus_add_bonus_self _ _ _ _ hmem]
        rfl
      have hpresB := lookupBonus_isSome_applySeq pid t M _ hpresX'
      by_cases hcol : ∃ o' ∈ M, o'.1 = t ∧ o'.2.1 = pid
      · obtain ⟨v₀, hv₀⟩ := Option.isSome_iff_exists.mp hpresB
        have hvd : vdRel pid t
            (applyOp (applySeq M (applyOp X (t, pid, v))) (t, pid, v))
            (applySeq M (applyOp X (t, pid, v))) :=
          Or.inr ⟨applySeq M (applyOp X (t, pid, v)), v, v₀, hpresB, rfl,
            (add_bonus_lookup_fixed _ pid t v₀ hv₀).symm⟩
        rw [vdRel_applySeq pid t M _ _ hvd hcol]
        exact ih (applyOp X (t, pid, v))
      · have hnw : lookupBonus (applySeq M (applyOp X (t, pid, v))) pid t =
            lookupBonus (applyOp X (t, pid, v)) pid t := by
          refine lookupBonus_applySeq_nowrite pid t M ?_ _
          intro o' ho' hco'
          exact hcol ⟨o', ho', hco'⟩
        have hfix : applyOp (applySeq M (applyOp X (t, pid, v)))
            (t, pid, v) = applySeq M (applyOp X (t, pid, v)) := by
          rw [applyOp]
          refine add_bonus_lookup_fixed _ pid t v ?_
          rw [hnw, applyOp, lookupBonus_add_bonus_self _ _ _ _ hmem]
        rw [hfix]
        exact ih (applyOp X (t, pid, v))
    · have hX' : applyOp X (t, pid, v) = X := by
        rw [applyOp]
        exact add_bonus_not_mem _ _ _ _ hmem
      have hBid : pid ∉ (applySeq M (applyOp X (t, pid, v))).map
          PlayerScore.player_id := by
        rw [applySeq_map_pid, hX']
        exact hmem
      have hfix : applyOp (applySeq M (applyOp X (t, pid, v)))
          (t, pid, v) = applySeq M (applyOp X (t, pid, v)) := by
        rw [applyOp]
        exact add_bonus_not_mem _ _ _ _ hBid
      rw [hfix]
      exact ih (applyOp X (t, pid, v))

/-- The `_add_bonus` writes issued by one iteration of the terrain loop,
as a function of the player count and this terrain's (id, score) list. -/
def terrainOps (numPlayers : Nat) (scores : List (Int × Int))
    (terrain : String) : List (String × Int × Int) :=
  let sorted := sortDescBy scoreLt scores
  let s0 := sorted.getD 0 (0, 0)
  let s1 := sorted.getD 1 (0, 0)
  if numPlayers = 2 then
    if s1.2 < s0.2 then [(terrain, s0.1, 2)]
    else if s0.2 = s1.2 ∧ 0 < s0.2 then
      [(terrain, s0.1, 1), (terrain, s1.1, 1)]
    else []
  else
    let max_score := s0.2
    if max_score = 0 then []
    else
      let tied_for_first := sorted.filter fun s => decide (s.2 = max_score)
      if tied_for_first.length = 1 then
        (terrain, (tied_for_first.getD 0 (0, 0)).1, 3) ::
          (if 1 < scores.length then
            if 0 < s1.2 then
              (if ((sorted.filter fun s =>
                  decide (s.2 = s1.2)).length = 1) then
                [(terrain, ((sorted.filter fun s =>
                  decide (s.2 = s1.2)).getD 0 (0, 0)).1, 1)]
              else [])
            else []
          else [])
      else if tied_for_first.length = 2 then
        tied_for_first.map fun w => (terrain, w.1, 2)
      else
        tied_for_first.map fun w => (terrain, w.1, 1)

theorem applyTerrain_eq_applySeq (num : Nat) (X : List PlayerScore)
    (t : String) :
    applyTerrain num X t =
      applySeq (terrainOps num (terrainScores X t) t) X := by
  simp only [applyTerrain, terrainOps]
  split_ifs <;>
    simp [applySeq, applyOp, List.foldl_map]

theorem terrainScores_applySeq (t' : String) :
    ∀ (L : List (String × Int × Int)) (X : List PlayerScore),
      terrainScores (applySeq L X) t' = terrainScores X t' := by
  intro L
  induction L with
  | nil => intro X; rfl
  | cons o M ih =>
    intro X
    show terrainScores (applySeq M (applyOp X o)) t' = terrainScores X t'
    rw [ih, applyOp, terrainScores_add_bonus]

theorem applySeq_length :
    ∀ (L : List (String × Int × Int)) (X : List PlayerScore),
      (applySeq L X).length = X.length := by
  intro L
  induction L with
  | nil => intro X; rfl
  | cons o M ih =>
    intro X
    show (applySeq M (applyOp X o)).length = X.length
    rw [ih, applyOp, add_bonus_length]

theorem terrainScores_recomputeTotals (X : List PlayerScore)
    (t : String) :
    terrainScores (recomputeTotals X) t = terrainScores X t := by
  induction X with
  | nil => rfl
  | cons ps rest ih =>
    simp only [recomputeTotals, terrainScores, List.map_cons] at *
    rw [ih]

theorem foldl_applyTerrain_eq_applySeq (num : Nat) :
    ∀ (ts : List String) (X : List PlayerScore),
      ts.foldl (applyTerrain num) X =
        applySeq (ts.flatMap fun t =>
          terrainOps num (terrainScores X t) t) X := by
  intro ts
  induction ts with
  | nil => intro X; rfl
  | cons t ts ih =>
    intro X
    simp only [List.foldl_cons, List.flatMap_cons]
    rw [ih (applyTerrain num X t)]
    have hts : ∀ t', terrainScores (applyTerrain num X t) t' =
        terrainScores X t' := fun t' => terrainScores_applyTerrain num X t t'
    have : (ts.flatMap fun t' =>
        terrainOps num (terrainScores (applyTerrain num X t) t') t') =
        ts.flatMap fun t' => terrainOps num (terrainScores X t') t' := by
      simp only [hts]
    rw [this, applyTerrain_eq_applySeq num X t]
    rw [applySeq, applySeq, applySeq, List.foldl_append]

/-- All fields of a `PlayerScore` except `total_score` (the total is a
derived value recomputed at the end of the resolver). -/
def psCore (ps : PlayerScore) :
    Int × List (String × Int) × List (String × Int) × Int × Int ×
      List (String × Int) :=
  (ps.player_id, ps.animal_scores, ps.habitat_scores, ps.habitat_total,
    ps.nature_tokens, ps.majority_bonuses)

theorem recomputeTotals_map_core (Z : List PlayerScore) :
    (recomputeTotals Z).map psCore = Z.map psCore := by
  induction Z with
  | nil => rfl
  | cons ps rest ih =>
    simp only [recomputeTotals, List.map_cons, psCore] at *
    rw [ih]

theorem add_bonus_core_congr (pid : Int) (t : String) (v : Int) :
    ∀ (Z₁ Z₂ : List PlayerScore), Z₁.map psCore = Z₂.map psCore →
      (add_bonus Z₁ pid t v).map psCore =
        (add_bonus Z₂ pid t v).map psCore := by
  intro Z₁
  induction Z₁ with
  | nil => intro Z₂ h; cases Z₂ with
    | nil => rfl
    | cons _ _ => simp at h
  | cons p₁ r₁ ih =>
    intro Z₂ h
    cases Z₂ with
    | nil => simp at h
    | cons p₂ r₂ =>
      simp only [List.map_cons, List.cons.injEq] at h
      have hid : p₁.player_id = p₂.player_id := by
        have := congrArg Prod.fst h.1
        simpa [psCore] using this
      have hbon : p₁.majority_bonuses = p₂.majority_bonuses := by
        have := congrArg (fun x => x.2.2.2.2.2) h.1
        simpa [psCore] using this
      by_cases hp : p₁.player_id = pid
      · have hp₂ : p₂.player_id = pid := by rw [← hid]; exact hp
        simp only [add_bonus, if_pos hp, if_pos hp₂, List.map_cons,
          List.cons.injEq]
        refine ⟨?_, h.2⟩
        have h1 := h.1
        simp only [psCore, Prod.mk.injEq] at h1 ⊢
        exact ⟨h1.1, h1.2.1, h1.2.2.1, h1.2.2.2.1, h1.2.2.2.2.1,
          by rw [h1.2.2.2.2.2]⟩
      · have hp₂ : ¬ p₂.player_id = pid := by rw [← hid]; exact hp
        simp only [add_bonus, if_neg hp, if_neg hp₂, List.map_cons,
          List.cons.injEq]
        exact ⟨h.1, ih r₂ h.2⟩

theorem applySeq_core_congr :
    ∀ (L : List (String × Int × Int)) (Z₁ Z₂ : List PlayerScore),
      Z₁.map psCore = Z₂.map psCore →
      (applySeq L Z₁).map psCore = (applySeq L Z₂).map psCore := by
  intro L
  induction L with
  | nil => intro Z₁ Z₂ h; exact h
  | cons o M ih =>
    intro Z₁ Z₂ h
    show (applySeq M (applyOp Z₁ o)).map psCore =
      (applySeq M (applyOp Z₂ o)).map psCore
    exact ih _ _ (add_bonus_core_congr _ _ _ Z₁ Z₂ h)

theorem recomputeTotals_of_core_eq :
    ∀ (Z₁ Z₂ : List PlayerScore), Z₁.map psCore = Z₂.map psCore →
      recomputeTotals Z₁ = recomputeTotals Z₂ := by
  intro Z₁
  induction Z₁ with
  | nil => intro Z₂ h; cases Z₂ with
    | nil => rfl
    | cons _ _ => simp at h
  | cons p₁ r₁ ih =>
    intro Z₂ h
    cases Z₂ with
    | nil => simp at h
    | cons p₂ r₂ =>
      simp only [List.map_cons, List.cons.injEq] at h
      have h1 := h.1
      simp only [psCore, Prod.mk.injEq] at h1
      simp only [recomputeTotals, List.map_cons, List.cons.injEq]
      constructor
      · simp [h1.1, h1.2.1, h1.2.2.1, h1.2.2.2.1, h1.2.2.2.2.1,
          h1.2.2.2.2.2]
      · simpa [recomputeTotals] using ih r₂ h.2

/-- **C7.** `_calculate_majority_bonuses` is idempotent: running the
resolver twice produces exactly the same player scores — every
per-terrain bonus entry is overwritten with the value it already holds
and the recomputed totals coincide. -/
theorem majority_bonuses_idempotent (pss : List PlayerScore) :
    calculate_majority_bonuses (calculate_majority_bonuses pss) =
      calculate_majority_bonuses pss := by
  have h1 : calculate_majority_bonuses pss =
      recomputeTotals (applySeq (terrainTypes.flatMap fun t =>
        terrainOps pss.length (terrainScores pss t) t) pss) := by
    rw [calculate_majority_bonuses,
      foldl_applyTerrain_eq_applySeq pss.length terrainTypes pss]
  have hlen : (calculate_majority_bonuses pss).length = pss.length := by
    rw [h1, recomputeTotals, List.length_map, applySeq_length]
  have hts : ∀ t, terrainScores (calculate_majority_bonuses pss) t =
      terrainScores pss t := by
    intro t
    rw [h1, terrainScores_recomputeTotals, terrainScores_applySeq]
  have h2 : calculate_majority_bonuses (calculate_majority_bonuses pss) =
      recomputeTotals (applySeq (terrainTypes.flatMap fun t =>
        terrainOps pss.length (terrainScores pss t) t)
        (calculate_majority_bonuses pss)) := by
    rw [calculate_majority_bonuses,
      foldl_applyTerrain_eq_applySeq _ terrainTypes _, hlen]
    have : (terrainTypes.flatMap fun t => terrainOps pss.length
        (terrainScores (calculate_majority_bonuses pss) t) t) =
        terrainTypes.flatMap fun t =>
          terrainOps pss.length (terrainScores pss t) t := by
      simp only [hts]
    rw [this]
  rw [h2, h1]
  apply recomputeTotals_of_core_eq
  have hcore : (applySeq (terrainTypes.flatMap fun t =>
      terrainOps pss.length (terrainScores pss t) t)
      (recomputeTotals (applySeq (terrainTypes.flatMap fun t =>
        terrainOps pss.length (terrainScores pss t) t) pss))).map psCore =
      (applySeq (terrainTypes.flatMap fun t =>
      terrainOps pss.length (terrainScores pss t) t)
      (applySeq (terrainTypes.flatMap fun t =>
        terrainOps pss.length (terrainScores pss t) t) pss)).map psCore :=
    applySeq_core_congr _ _ _ (recomputeTotals_map_core _)
  rw [hcore, applySeq_idem]
